import Mathlib

/-! Verification of the resume-genie template engine, resume-data validation
and the AI customization pipeline. Text is modelled shallowly as lists of
characters (`Str`). Each definition in the first part of the file embeds one
function of the repository; the theorems at the end settle the stated
properties about those definitions. A few length lemmas sit between the
definitions because the scanner definitions need them for termination. -/

set_option maxRecDepth 8000

abbrev Str := List Char

/-- The left brace character, written by code point. -/
def lbChar : Char := Char.ofNat 123

/-- The right brace character, written by code point. -/
def rbChar : Char := Char.ofNat 125

/-- The apostrophe character, written by code point. -/
def aposChar : Char := Char.ofNat 39

/-- Characters treated as whitespace by the Python strip operation. -/
def isPySpace (c : Char) : Bool :=
  c = ' ' || c = '\t' || c = '\n' || c = '\r' || c = Char.ofNat 11 || c = Char.ofNat 12

/-- Python str.strip: drop whitespace from both ends. -/
def pyStrip (s : Str) : Str :=
  ((s.dropWhile isPySpace).reverse.dropWhile isPySpace).reverse

/-- startsW p s: s begins with the literal p (Python str.startswith). -/
def startsW : Str → Str → Bool
  | [], _ => true
  | _ :: _, [] => false
  | p :: ps, c :: cs => p = c && startsW ps cs

/-- endsW p s: s ends with the literal p (Python str.endswith). -/
def endsW (p s : Str) : Bool :=
  startsW p.reverse s.reverse

/-- Remove the literal p from the front of s, or fail. -/
def stripLit : Str → Str → Option Str
  | [], s => some s
  | _ :: _, [] => none
  | p :: ps, c :: cs => if p = c then stripLit ps cs else none

/-- Split s at the first occurrence of needle: the part before it and the
part after it; none when needle does not occur in s. -/
def splitFirst (needle : Str) : Str → Option (Str × Str)
  | [] => if needle.isEmpty then some ([], []) else none
  | c :: t =>
    if startsW needle (c :: t) then some ([], (c :: t).drop needle.length)
    else (splitFirst needle t).map (fun p => (c :: p.1, p.2))

/-- needle occurs somewhere in hay. -/
def hasSub (needle hay : Str) : Bool :=
  (splitFirst needle hay).isSome

/-- Python str.split(sep) for a one-character separator: empty pieces kept. -/
def splitOnC (sep : Char) : Str → List Str
  | [] => [[]]
  | c :: t =>
    if c = sep then [] :: splitOnC sep t
    else
      match splitOnC sep t with
      | [] => [[c]]
      | l :: ls => (c :: l) :: ls

/-- Split into lines at the newline character, as Python split("\n"). -/
def splitNL (s : Str) : List Str := splitOnC '\n' s

/-- Join a list of pieces with a separator string (Python sep.join). -/
def joinSep (sep : Str) : List Str → Str
  | [] => []
  | [x] => x
  | x :: y :: xs => x ++ sep ++ joinSep sep (y :: xs)

/-- Scanner of strReplace for a non-empty needle n0 :: ns. -/
def strReplaceGo (n0 : Char) (ns repl : Str) : Str → Str
  | [] => []
  | c :: t =>
    if startsW (n0 :: ns) (c :: t) then repl ++ strReplaceGo n0 ns repl (t.drop ns.length)
    else c :: strReplaceGo n0 ns repl t
termination_by s => s.length
decreasing_by
  · simp only [List.length_drop, List.length_cons]
    omega
  · simp

/-- Python str.replace: replace every occurrence of needle by repl,
scanning left to right (needle is non-empty at every use site; an empty
needle leaves the text unchanged here). -/
def strReplace (needle repl s : Str) : Str :=
  match needle with
  | [] => s
  | n0 :: ns => strReplaceGo n0 ns repl s

/-- A word character for the regex class \w (ASCII letters, digits, underscore). -/
def isWordChar (c : Char) : Bool :=
  c.isAlpha || c.isDigit || c = '_'

/-- Python str.isdigit on ASCII: non-empty and all decimal digits. -/
def isDigitsStr (s : Str) : Bool :=
  !s.isEmpty && s.all Char.isDigit

/-- Decimal digit character for d < 10. -/
def digitChar (d : Nat) : Char := Char.ofNat (48 + d)

/-- Decimal form of a natural number, as Python str(n). -/
def natStr (n : Nat) : Str :=
  if n < 10 then [digitChar n]
  else natStr (n / 10) ++ [digitChar (n % 10)]
termination_by n
decreasing_by
  rename_i h
  have : 10 ≤ n := Nat.le_of_not_lt h
  omega

/-- Decimal form of an integer, as Python str(n). -/
def intStr (n : Int) : Str :=
  if n < 0 then '-' :: natStr (-n).toNat else natStr n.toNat

/-- Value of a digit string. -/
def natOfDigits (s : Str) : Nat :=
  s.foldl (fun acc c => 10 * acc + (c.toNat - 48)) 0

/-- Python int() on a token: optional sign followed by at least one digit. -/
def pyIntOfStr (s : Str) : Option Int :=
  match s with
  | '-' :: t => if isDigitsStr t then some (-(natOfDigits t : Int)) else none
  | '+' :: t => if isDigitsStr t then some (natOfDigits t : Int) else none
  | t => if isDigitsStr t then some (natOfDigits t : Int) else none

/-- Helper for pySplitWS: cur holds the reversed current word. -/
def pySplitWSAux (cur : Str) : Str → List Str
  | [] => if cur.isEmpty then [] else [cur.reverse]
  | c :: t =>
    if isPySpace c then
      if cur.isEmpty then pySplitWSAux [] t else cur.reverse :: pySplitWSAux [] t
    else pySplitWSAux (c :: cur) t

/-- Python str.split() with no argument: split on whitespace runs, no empties. -/
def pySplitWS (s : Str) : List Str := pySplitWSAux [] s

/-- Python str.rstrip(":"): drop trailing colons. -/
def rstripColons (s : Str) : Str :=
  (s.reverse.dropWhile (fun c => c = ':')).reverse

/-! Soundness and length lemmas used by the scanner definitions below for
termination (and later for the rendering theorems). -/

theorem startsW_sound : ∀ (p s : Str), startsW p s = true → s = p ++ s.drop p.length := by
  intro p
  induction p with
  | nil => intro s _; simp
  | cons a ps ih =>
    intro s h
    cases s with
    | nil => simp [startsW] at h
    | cons c cs =>
      simp only [startsW, Bool.and_eq_true, decide_eq_true_eq] at h
      obtain ⟨rfl, h2⟩ := h
      simpa using ih cs h2

theorem stripLit_sound : ∀ (p s r : Str), stripLit p s = some r → s = p ++ r := by
  intro p
  induction p with
  | nil => intro s r h; simpa [stripLit] using h
  | cons a ps ih =>
    intro s r h
    cases s with
    | nil => simp [stripLit] at h
    | cons c cs =>
      simp only [stripLit] at h
      split at h
      · rename_i he
        subst he
        simpa using ih cs r h
      · exact absurd h (by simp)

theorem splitFirst_sound : ∀ (s n a b : Str), splitFirst n s = some (a, b) → s = a ++ n ++ b := by
  intro s
  induction s with
  | nil =>
    intro n a b h
    simp only [splitFirst] at h
    split at h
    · rename_i he
      simp only [Option.some.injEq, Prod.mk.injEq] at h
      obtain ⟨rfl, rfl⟩ := h
      simp [List.isEmpty_iff.mp he]
    · exact absurd h (by simp)
  | cons c t ih =>
    intro n a b h
    simp only [splitFirst] at h
    split at h
    · rename_i hs
      simp only [Option.some.injEq, Prod.mk.injEq] at h
      obtain ⟨rfl, rfl⟩ := h
      simpa using startsW_sound n (c :: t) hs
    · rename_i hs
      cases hr : splitFirst n t with
      | none => rw [hr] at h; simp at h
      | some p =>
        obtain ⟨a', b'⟩ := p
        rw [hr] at h
        simp only [Option.map_some', Option.some.injEq, Prod.mk.injEq] at h
        obtain ⟨h1, h2⟩ := h
        subst h1
        subst h2
        have := ih n a' b' hr
        simp [this]

/-! The Python value model: the shapes a template context or a flattened
resume record can hold (strings, ints, booleans, None, lists, dicts). -/

inductive PyVal where
  | pstr (s : Str)
  | pint (n : Int)
  | pbool (b : Bool)
  | pnone
  | plist (xs : List PyVal)
  | pdict (kvs : List (Str × PyVal))

/-! Python repr, as used by str() on list and dict elements. String repr is
approximated (quote-escaping of the content is elided); only well-formedness
and non-blankness of the form matter to the properties proved here. -/

mutual
def pyRepr : PyVal → Str
  | .pstr s => aposChar :: s ++ [aposChar]
  | .pint n => intStr n
  | .pbool b => if b then "True".toList else "False".toList
  | .pnone => "None".toList
  | .plist xs => '[' :: pyReprSeq xs ++ [']']
  | .pdict kvs => lbChar :: pyReprKVs kvs ++ [rbChar]

def pyReprSeq : List PyVal → Str
  | [] => []
  | [x] => pyRepr x
  | x :: y :: xs => pyRepr x ++ ", ".toList ++ pyReprSeq (y :: xs)

def pyReprKVs : List (Str × PyVal) → Str
  | [] => []
  | [(k, v)] => (aposChar :: k ++ [aposChar]) ++ ": ".toList ++ pyRepr v
  | (k, v) :: kv :: kvs =>
    (aposChar :: k ++ [aposChar]) ++ ": ".toList ++ pyRepr v ++ ", ".toList ++ pyReprKVs (kv :: kvs)
end

/-- Python str() of a value. -/
def pyStr : PyVal → Str
  | .pstr s => s
  | .pint n => pyRepr (.pint n)
  | .pbool b => pyRepr (.pbool b)
  | .pnone => pyRepr .pnone
  | .plist xs => pyRepr (.plist xs)
  | .pdict kvs => pyRepr (.pdict kvs)

/-- Is the value Python None. -/
def isNoneV : PyVal → Bool
  | .pnone => true
  | _ => false

/-- A template context: the data_dict the engine renders against. -/
abbrev Ctx := List (Str × PyVal)

/-- Key lookup (Python: name in data_dict / data_dict[name]). -/
def ctxFind (ctx : Ctx) (k : Str) : Option PyVal :=
  match ctx with
  | [] => none
  | (k', v) :: t => if k' = k then some v else ctxFind t k

/-! Template engine: DynamicTemplateEngine in src/core/template_manager.py.
The three regex passes are embedded as leftmost, non-overlapping scanners,
exactly re.sub order: a failed match advances one character. -/

/-- The literal opener of the conditional construct. -/
def ifOpen : Str := "\x7b% if ".toList

/-- The literal " %}" closing a construct header. -/
def pctClose : Str := " %\x7d".toList

/-- The literal end marker of the conditional construct. -/
def endifTok : Str := "\x7b% endif %\x7d".toList

/-- The literal opener of the loop construct. -/
def forOpen : Str := "\x7b% for ".toList

/-- The literal " in " between the loop variable and the collection. -/
def inTok : Str := " in ".toList

/-- The literal end marker of the loop construct. -/
def endforTok : Str := "\x7b% endfor %\x7d".toList

/-- Triple opening braces of a variable placeholder. -/
def brace3 : Str := [lbChar, lbChar, lbChar]

/-- Triple closing braces of a variable placeholder. -/
def rbrace3 : Str := [rbChar, rbChar, rbChar]

/-- Two opening braces (loop-body placeholders). -/
def brace2 : Str := [lbChar, lbChar]

/-- Two closing braces (loop-body placeholders). -/
def rbrace2 : Str := [rbChar, rbChar]

/-- Truthiness test of _process_conditionals (template_manager.py lines
199-208): non-empty list, or non-blank string, or true boolean, or any
non-None value whose str() form is non-blank. -/
def pyTruthy (v : PyVal) : Bool :=
  (match v with | .plist xs => !xs.isEmpty | _ => false)
  || (match v with | .pstr s => !(pyStrip s).isEmpty | _ => false)
  || (match v with | .pbool b => b | _ => false)
  || (!isNoneV v && !(pyStrip (pyStr v)).isEmpty)

/-- Match the conditional pattern at the start of s: on success the
condition name, the lazily matched body, and the rest of the input. -/
def tryIf (s : Str) : Option (Str × Str × Str) :=
  (stripLit ifOpen s).bind fun s1 =>
    if (s1.takeWhile isWordChar).isEmpty then none
    else
      (stripLit pctClose (s1.dropWhile isWordChar)).bind fun s3 =>
        (splitFirst endifTok s3).map fun p => (s1.takeWhile isWordChar, p.1, p.2)

theorem tryIf_inv {s w b r : Str} (h : tryIf s = some (w, b, r)) :
    ∃ s1, stripLit ifOpen s = some s1 ∧ w = s1.takeWhile isWordChar ∧ w ≠ [] ∧
      ∃ s3, stripLit pctClose (s1.dropWhile isWordChar) = some s3 ∧
        splitFirst endifTok s3 = some (b, r) := by
  unfold tryIf at h
  rw [Option.bind_eq_some] at h
  obtain ⟨s1, h1, h⟩ := h
  split at h
  · simp at h
  · rename_i hne
    rw [Option.bind_eq_some] at h
    obtain ⟨s3, h2, h⟩ := h
    rw [Option.map_eq_some'] at h
    obtain ⟨p, h3, hp⟩ := h
    obtain ⟨b', r'⟩ := p
    simp only [Prod.mk.injEq] at hp
    obtain ⟨rfl, rfl, rfl⟩ := hp
    exact ⟨s1, h1, rfl, by simpa using hne, s3, h2, h3⟩

theorem tryIf_len {s w b r : Str} (h : tryIf s = some (w, b, r)) : r.length < s.length := by
  obtain ⟨s1, h1, hw, hne, s3, h2, h3⟩ := tryIf_inv h
  have e1 := stripLit_sound _ _ _ h1
  have e2 := stripLit_sound _ _ _ h2
  have e3 := splitFirst_sound _ _ _ _ h3
  have e4 : s1.takeWhile isWordChar ++ s1.dropWhile isWordChar = s1 :=
    List.takeWhile_append_dropWhile isWordChar s1
  have l1 := congrArg List.length e1
  have l2 := congrArg List.length e2
  have l3 := congrArg List.length e3
  have l4 := congrArg List.length e4
  simp only [List.length_append] at l1 l2 l3 l4
  have c1 : ifOpen.length = 6 := by decide
  have c2 : endifTok.length = 11 := by decide
  have c3 : pctClose.length = 3 := by decide
  omega

/-- The _process_conditionals pass: replace each {% if name %}body{% endif %} by the
body when the context value is truthy, and by nothing otherwise. -/
def processConditionals (ctx : Ctx) : Str → Str
  | [] => []
  | c :: t =>
    match h : tryIf (c :: t) with
    | some (w, body, rest) =>
      (if (match ctxFind ctx w with | some v => pyTruthy v | none => false)
       then body else []) ++ processConditionals ctx rest
    | none => c :: processConditionals ctx t
termination_by s => s.length
decreasing_by
  · exact tryIf_len h
  · simp

/-- Match the variable pattern at the start of s: on success the raw
placeholder name and the rest of the input. -/
def tryVar (s : Str) : Option (Str × Str) :=
  (stripLit brace3 s).bind fun s1 =>
    if (s1.takeWhile (fun c => c ≠ rbChar)).isEmpty then none
    else
      (stripLit rbrace3 (s1.dropWhile (fun c => c ≠ rbChar))).map
        fun rest => (s1.takeWhile (fun c => c ≠ rbChar), rest)

theorem tryVar_inv {s w r : Str} (h : tryVar s = some (w, r)) :
    ∃ s1, stripLit brace3 s = some s1 ∧ w = s1.takeWhile (fun c => c ≠ rbChar) ∧ w ≠ [] ∧
      stripLit rbrace3 (s1.dropWhile (fun c => c ≠ rbChar)) = some r := by
  unfold tryVar at h
  rw [Option.bind_eq_some] at h
  obtain ⟨s1, h1, h⟩ := h
  split at h
  · simp at h
  · rename_i hne
    rw [Option.map_eq_some'] at h
    obtain ⟨rest, h2, hp⟩ := h
    simp only [Prod.mk.injEq] at hp
    obtain ⟨rfl, rfl⟩ := hp
    exact ⟨s1, h1, rfl, by simpa using hne, h2⟩

theorem tryVar_len {s w r : Str} (h : tryVar s = some (w, r)) : r.length < s.length := by
  obtain ⟨s1, h1, hw, hne, h2⟩ := tryVar_inv h
  have e1 := stripLit_sound _ _ _ h1
  have e2 := stripLit_sound _ _ _ h2
  have e4 : s1.takeWhile (fun c => c ≠ rbChar) ++ s1.dropWhile (fun c => c ≠ rbChar) = s1 :=
    List.takeWhile_append_dropWhile _ s1
  have l1 := congrArg List.length e1
  have l2 := congrArg List.length e2
  have l4 := congrArg List.length e4
  simp only [List.length_append] at l1 l2 l4
  have c1 : brace3.length = 3 := by decide
  have c2 : rbrace3.length = 3 := by decide
  omega

/-- The _process_variables pass: replace {{{name}}} by the looked-up value (None
shows as nothing), or by the bracketed placeholder [name] when missing. -/
def processVariables (ctx : Ctx) : Str → Str
  | [] => []
  | c :: t =>
    match h : tryVar (c :: t) with
    | some (w, rest) =>
      (match ctxFind ctx (pyStrip w) with
       | some v => if isNoneV v then [] else pyStr v
       | none => '[' :: pyStrip w ++ [']']) ++ processVariables ctx rest
    | none => c :: processVariables ctx t
termination_by s => s.length
decreasing_by
  · exact tryVar_len h
  · simp


/-- Match the loop pattern at the start of s: on success the item variable,
the collection variable, the lazily matched body, and the rest. -/
def tryFor (s : Str) : Option (Str × Str × Str × Str) :=
  (stripLit forOpen s).bind fun s1 =>
    if (s1.takeWhile isWordChar).isEmpty then none
    else
      (stripLit inTok (s1.dropWhile isWordChar)).bind fun s2 =>
        if (s2.takeWhile isWordChar).isEmpty then none
        else
          (stripLit pctClose (s2.dropWhile isWordChar)).bind fun s3 =>
            (splitFirst endforTok s3).map fun p =>
              (s1.takeWhile isWordChar, s2.takeWhile isWordChar, p.1, p.2)

theorem tryFor_inv {s iv cv b r : Str} (h : tryFor s = some (iv, cv, b, r)) :
    ∃ s1 s2 s3, stripLit forOpen s = some s1 ∧ iv = s1.takeWhile isWordChar ∧ iv ≠ [] ∧
      stripLit inTok (s1.dropWhile isWordChar) = some s2 ∧
      cv = s2.takeWhile isWordChar ∧ cv ≠ [] ∧
      stripLit pctClose (s2.dropWhile isWordChar) = some s3 ∧
      splitFirst endforTok s3 = some (b, r) := by
  unfold tryFor at h
  rw [Option.bind_eq_some] at h
  obtain ⟨s1, h1, h⟩ := h
  split at h
  · simp at h
  · rename_i hne1
    rw [Option.bind_eq_some] at h
    obtain ⟨s2, h2, h⟩ := h
    split at h
    · simp at h
    · rename_i hne2
      rw [Option.bind_eq_some] at h
      obtain ⟨s3, h3, h⟩ := h
      rw [Option.map_eq_some'] at h
      obtain ⟨p, h4, hp⟩ := h
      obtain ⟨b', r'⟩ := p
      simp only [Prod.mk.injEq] at hp
      obtain ⟨rfl, rfl, rfl, rfl⟩ := hp
      exact ⟨s1, s2, s3, h1, rfl, by simpa using hne1, h2, rfl, by simpa using hne2, h3, h4⟩

theorem tryFor_len {s iv cv b r : Str} (h : tryFor s = some (iv, cv, b, r)) :
    r.length < s.length := by
  obtain ⟨s1, s2, s3, h1, hiv, hne1, h2, hcv, hne2, h3, h4⟩ := tryFor_inv h
  have e1 := stripLit_sound _ _ _ h1
  have e2 := stripLit_sound _ _ _ h2
  have e3 := stripLit_sound _ _ _ h3
  have e4 := splitFirst_sound _ _ _ _ h4
  have t1 := List.takeWhile_append_dropWhile isWordChar s1
  have t2 := List.takeWhile_append_dropWhile isWordChar s2
  have l1 := congrArg List.length e1
  have l2 := congrArg List.length e2
  have l3 := congrArg List.length e3
  have l4 := congrArg List.length e4
  have l5 := congrArg List.length t1
  have l6 := congrArg List.length t2
  simp only [List.length_append] at l1 l2 l3 l4 l5 l6
  have c1 : forOpen.length = 7 := by decide
  have c2 : inTok.length = 4 := by decide
  have c3 : pctClose.length = 3 := by decide
  have c4 : endforTok.length = 12 := by decide
  omega

/-- Match the nested loop-variable pattern at the start of s (the regex
"two braces, then itemVar, then a dot, then at least one non-brace
character, then two closing braces"): the raw key path and the rest. -/
def tryNested (itemVar : Str) (s : Str) : Option (Str × Str) :=
  (stripLit (brace2 ++ itemVar ++ ['.']) s).bind fun s1 =>
    if (s1.takeWhile (fun c => c ≠ rbChar)).isEmpty then none
    else
      (stripLit rbrace2 (s1.dropWhile (fun c => c ≠ rbChar))).map
        fun rest => (s1.takeWhile (fun c => c ≠ rbChar), rest)

theorem tryNested_inv {iv s w r : Str} (h : tryNested iv s = some (w, r)) :
    ∃ s1, stripLit (brace2 ++ iv ++ ['.']) s = some s1 ∧
      w = s1.takeWhile (fun c => c ≠ rbChar) ∧ w ≠ [] ∧
      stripLit rbrace2 (s1.dropWhile (fun c => c ≠ rbChar)) = some r := by
  unfold tryNested at h
  rw [Option.bind_eq_some] at h
  obtain ⟨s1, h1, h⟩ := h
  split at h
  · simp at h
  · rename_i hne
    rw [Option.map_eq_some'] at h
    obtain ⟨rest, h2, hp⟩ := h
    simp only [Prod.mk.injEq] at hp
    obtain ⟨rfl, rfl⟩ := hp
    exact ⟨s1, h1, rfl, by simpa using hne, h2⟩

theorem tryNested_len {iv s w r : Str} (h : tryNested iv s = some (w, r)) :
    r.length < s.length := by
  obtain ⟨s1, h1, hw, hne, h2⟩ := tryNested_inv h
  have e1 := stripLit_sound _ _ _ h1
  have e2 := stripLit_sound _ _ _ h2
  have t1 := List.takeWhile_append_dropWhile (fun c => c ≠ rbChar) s1
  have l1 := congrArg List.length e1
  have l2 := congrArg List.length e2
  have l5 := congrArg List.length t1
  simp only [List.length_append] at l1 l2 l5
  have c1 : rbrace2.length = 2 := by decide
  have c2 : brace2.length = 2 := by decide
  simp only [List.length_append, c2, List.length_cons, List.length_nil] at l1
  omega

/-- Resolve a dotted key path against a value: mapping keys first, then
sequence indices for all-digit segments. Attribute access (the hasattr
branch of the source) is modelled as absent: the data handed to the engine
is produced by asdict and holds no attribute-bearing objects. -/
def resolvePath : PyVal → List Str → Option PyVal
  | v, [] => some v
  | .pdict kvs, k :: ks =>
    match ctxFind kvs k with
    | some v => resolvePath v ks
    | none => none
  | .plist xs, k :: ks =>
    if isDigitsStr k then
      match xs[natOfDigits k]? with
      | some v => resolvePath v ks
      | none => none
    else none
  | _, _ :: _ => none
termination_by _ ks => ks.length

/-- The _replace_nested_variables helper: replace each {{itemVar.path}} inside a loop
body by the resolved value (None shows as nothing, a dangling path as the
bracketed placeholder [itemVar.path]). -/
def replaceNested (itemVar : Str) (d : List (Str × PyVal)) : Str → Str
  | [] => []
  | c :: t =>
    match h : tryNested itemVar (c :: t) with
    | some (run, rest) =>
      (match resolvePath (.pdict d) (splitOnC '.' run) with
       | some v => if isNoneV v then [] else pyStr v
       | none => '[' :: itemVar ++ '.' :: run ++ [']']) ++ replaceNested itemVar d rest
    | none => c :: replaceNested itemVar d t
termination_by s => s.length
decreasing_by
  · exact tryNested_len h
  · simp

/-- Render one loop iteration: nested replacement for dict elements, plain
replacement of the bare {{itemVar}} placeholder for scalar elements. -/
def loopItemBody (itemVar body : Str) : PyVal → Str
  | .pdict d => replaceNested itemVar d body
  | v => strReplace (brace2 ++ itemVar ++ rbrace2) (pyStr v) body

/-- The replacement for one matched loop construct (replace_loop in
_process_loops): nothing when the collection is missing, not a list, or
empty; otherwise the rendered iterations joined by newlines. -/
def replaceLoop (ctx : Ctx) (itemVar collVar body : Str) : Str :=
  match ctxFind ctx collVar with
  | none => []
  | some (.plist xs) =>
    if xs.isEmpty then []
    else joinSep ['\n'] (xs.map (loopItemBody itemVar body))
  | some _ => []

/-- The _process_loops pass: expand every {% for item in coll %}body{% endfor %}. -/
def processLoops (ctx : Ctx) : Str → Str
  | [] => []
  | c :: t =>
    match h : tryFor (c :: t) with
    | some (itemVar, collVar, body, rest) =>
      replaceLoop ctx itemVar collVar body ++ processLoops ctx rest
    | none => c :: processLoops ctx t
termination_by s => s.length
decreasing_by
  · exact tryFor_len h
  · simp

/-- render_template: loops, then conditionals, then variables. -/
def renderTemplate (ctx : Ctx) (template : Str) : Str :=
  processVariables ctx (processConditionals ctx (processLoops ctx template))

/-! Markup escaper: LaTeXGenerator._latex_escape in src/core/latex_generator.py. -/

/-- The per-character substitution of _latex_escape (the if chain of the
source, in source order); characters outside the table pass through. -/
def latexEscapeChar (c : Char) : Str :=
  if c = '\\' then "\\textbackslash".toList ++ [lbChar, rbChar]
  else if c = '&' then "\\&".toList
  else if c = '%' then "\\%".toList
  else if c = '$' then "\\$".toList
  else if c = '#' then "\\#".toList
  else if c = '^' then "\\textasciicircum".toList ++ [lbChar, rbChar]
  else if c = '_' then "\\_".toList
  else if c = lbChar then ['\\', lbChar]
  else if c = rbChar then ['\\', rbChar]
  else if c = '~' then "\\textasciitilde".toList ++ [lbChar, rbChar]
  else [c]

/-- The _latex_escape body on a string: the loop result += replacement(char), i.e.
the concatenation of the per-character substitutions. -/
def latexEscape : Str → Str
  | [] => []
  | c :: t => latexEscapeChar c ++ latexEscape t

/-- The _latex_escape entry on any value: non-string inputs are stringified first
(the isinstance check at the top of the source). -/
def latexEscapeVal (v : PyVal) : Str :=
  match v with
  | .pstr s => latexEscape s
  | .pint n => latexEscape (pyStr (.pint n))
  | .pbool b => latexEscape (pyStr (.pbool b))
  | .pnone => latexEscape (pyStr .pnone)
  | .plist xs => latexEscape (pyStr (.plist xs))
  | .pdict kvs => latexEscape (pyStr (.pdict kvs))

/-! Resume data model: src/models/resume_data.py and
src/models/job_profile.py, field for field. -/

structure ContactInfo where
  email : Str
  phone : Str
deriving DecidableEq

structure Website where
  text : Str
  url : Str
  icon : Option Str
deriving DecidableEq

structure BasicInfo where
  name : Str
  address : List Str
  contact : ContactInfo
  websites : List Website
deriving DecidableEq

/-- Degree: the gpa field is an optional floating-point number in the
source; no property here reads it. -/
structure Degree where
  names : List Str
  startdate : Str
  enddate : Str
  gpa : Option Float

structure Education where
  school : Str
  degrees : List Degree
  achievements : List Str

structure JobTitle where
  name : Str
  startdate : Str
  enddate : Str
deriving DecidableEq

structure Experience where
  company : Str
  titles : List JobTitle
  highlights : List Str
  unedited : List Str
deriving DecidableEq

structure SkillCategory where
  category : Str
  skills : List Str
deriving DecidableEq

structure ProjectData where
  name : Str
  description : Str
  subtitle : Option Str
  url : Option Str
  technologies : List Str
  highlights : List Str
deriving DecidableEq

structure ResearchData where
  title : Str
  description : Str
  publication_date : Option Str
  collaborators : List Str
  keywords : List Str
deriving DecidableEq

structure ResumeData where
  basic : BasicInfo
  summary : Option Str
  experiences : List Experience
  education : List Education
  projects : List ProjectData
  research : List ResearchData
  skills : List SkillCategory

structure JobProfile where
  title : Str
  company : Str
  description : Str
  requirements : List Str
  preferred_skills : List Str
  industry : Str
  experience_level : Str

/-! ResumeData.validate, section by section, appending messages in source
order. The index-carrying helpers mirror the enumerate loops. -/

/-- Messages for the basic info block. -/
def basicErrors (b : BasicInfo) : List Str :=
  (if (pyStrip b.name).isEmpty then ["Name is required".toList] else [])
  ++ (if (pyStrip b.contact.email).isEmpty then ["Email is required".toList] else [])
  ++ (if (pyStrip b.contact.phone).isEmpty then ["Phone is required".toList] else [])
  ++ (if b.address.isEmpty then ["Address is required".toList] else [])

/-- Message prefix "Experience {i+1}, Title {j+1}: ". -/
def expTitlePre (i j : Nat) : Str :=
  "Experience ".toList ++ natStr (i+1) ++ ", Title ".toList ++ natStr (j+1) ++ ": ".toList

/-- Messages of the inner title loop of one experience. -/
def titleErrors (i : Nat) : Nat → List JobTitle → List Str
  | _, [] => []
  | j, t :: rest =>
    (if (pyStrip t.name).isEmpty then [expTitlePre i j ++ "Job title name is required".toList] else [])
    ++ (if (pyStrip t.startdate).isEmpty then [expTitlePre i j ++ "Start date is required".toList] else [])
    ++ (if (pyStrip t.enddate).isEmpty then [expTitlePre i j ++ "End date is required".toList] else [])
    ++ titleErrors i (j+1) rest

/-- Messages of the experience loop. -/
def expErrors : Nat → List Experience → List Str
  | _, [] => []
  | i, e :: rest =>
    (if (pyStrip e.company).isEmpty
     then ["Experience ".toList ++ natStr (i+1) ++ ": Company name is required".toList] else [])
    ++ (if e.titles.isEmpty
        then ["Experience ".toList ++ natStr (i+1) ++ ": At least one job title is required".toList] else [])
    ++ titleErrors i 0 e.titles
    ++ expErrors (i+1) rest

/-- Message prefix "Education {i+1}, Degree {j+1}: ". -/
def eduDegreePre (i j : Nat) : Str :=
  "Education ".toList ++ natStr (i+1) ++ ", Degree ".toList ++ natStr (j+1) ++ ": ".toList

/-- Messages of the inner degree loop of one education entry. -/
def degreeErrors (i : Nat) : Nat → List Degree → List Str
  | _, [] => []
  | j, d :: rest =>
    (if d.names.isEmpty then [eduDegreePre i j ++ "Degree name is required".toList] else [])
    ++ (if (pyStrip d.startdate).isEmpty then [eduDegreePre i j ++ "Start date is required".toList] else [])
    ++ (if (pyStrip d.enddate).isEmpty then [eduDegreePre i j ++ "End date is required".toList] else [])
    ++ degreeErrors i (j+1) rest

/-- Messages of the education loop. -/
def eduErrors : Nat → List Education → List Str
  | _, [] => []
  | i, e :: rest =>
    (if (pyStrip e.school).isEmpty
     then ["Education ".toList ++ natStr (i+1) ++ ": School name is required".toList] else [])
    ++ (if e.degrees.isEmpty
        then ["Education ".toList ++ natStr (i+1) ++ ": At least one degree is required".toList] else [])
    ++ degreeErrors i 0 e.degrees
    ++ eduErrors (i+1) rest

/-- Messages of the skill-category loop. -/
def skillsErrors : Nat → List SkillCategory → List Str
  | _, [] => []
  | i, c :: rest =>
    (if (pyStrip c.category).isEmpty
     then ["Skill category ".toList ++ natStr (i+1) ++ ": Category name is required".toList] else [])
    ++ (if c.skills.isEmpty
        then ["Skill category ".toList ++ natStr (i+1) ++ ": At least one skill is required".toList] else [])
    ++ skillsErrors (i+1) rest

/-- Messages of the project loop. -/
def projErrors : Nat → List ProjectData → List Str
  | _, [] => []
  | i, p :: rest =>
    (if (pyStrip p.name).isEmpty
     then ["Project ".toList ++ natStr (i+1) ++ ": Project name is required".toList] else [])
    ++ (if (pyStrip p.description).isEmpty
        then ["Project ".toList ++ natStr (i+1) ++ ": Project description is required".toList] else [])
    ++ projErrors (i+1) rest

/-- Messages of the research loop. -/
def resErrors : Nat → List ResearchData → List Str
  | _, [] => []
  | i, r :: rest =>
    (if (pyStrip r.title).isEmpty
     then ["Research ".toList ++ natStr (i+1) ++ ": Research title is required".toList] else [])
    ++ (if (pyStrip r.description).isEmpty
        then ["Research ".toList ++ natStr (i+1) ++ ": Research description is required".toList] else [])
    ++ resErrors (i+1) rest

/-- ResumeData.validate: every section's messages, in source order. -/
def validateResume (r : ResumeData) : List Str :=
  basicErrors r.basic
  ++ expErrors 0 r.experiences
  ++ eduErrors 0 r.education
  ++ skillsErrors 0 r.skills
  ++ projErrors 0 r.projects
  ++ resErrors 0 r.research

/-- ResumeData.is_valid. -/
def isValidResume (r : ResumeData) : Bool :=
  (validateResume r).length = 0

/-! AI customization engine: src/ai/customization_engine.py, with the
transport (src/ai/ai_client.py) abstracted as a function-valued record.
The engine is modelled in its fallback-prompt mode (the mode entered when
the external prompt configuration fails to load); the properties proved
below do not depend on the prompt or context text handed to the transport. -/

/-- AIResponse: the result of one transport round trip. -/
structure AIResponse where
  success : Bool
  content : Str
  error_message : Option Str
  status_code : Option Int

/-- Model parameters handed to one call. -/
structure ModelParams where
  model : Str
  max_tokens : Nat
  temperature : Float

/-- The transport layer: available is the outcome of the is_available
probe (its own minimal HTTP call), call is customize_content_with_params
(prompt, context, model parameters). -/
structure AIClient where
  available : Bool
  call : Str → Str → ModelParams → AIResponse

/-- Default model parameters of the fallback path. -/
def defaultModelParams : ModelParams :=
  { model := "gpt-4o-mini".toList, max_tokens := 1000, temperature := 0.7 }

/-- The hardcoded fallback prompts (engine constructor, lines 40-56). -/
def fallbackPrompts : List (Str × Str) :=
  [ ("summary".toList,
     ("You are a professional resume writer. Customize the given resume summary to better align with the job requirements. \n            Keep the same tone and style but emphasize relevant skills and experiences that match the job profile. \n            Return only the customized summary text, no additional formatting or explanations.").toList),
    ("experience".toList,
     ("You are a professional resume writer. Customize the given work experience highlights to better align with the job requirements.\n            Emphasize achievements and responsibilities that are most relevant to the target job. Keep the same factual content but adjust the emphasis and wording.\n            Return the customized highlights as a bullet-point list, one highlight per line starting with \x27- \x27.").toList),
    ("skills".toList,
     ("You are a professional resume writer. Given a list of skills and a job profile, reorder and emphasize the skills that are most relevant to the job.\n            You may also suggest grouping skills differently if it better matches the job requirements. Keep all original skills but prioritize the most relevant ones.\n            Return the skills in the same format as provided, maintaining the category structure.").toList),
    ("projects".toList,
     ("You are a professional resume writer. Customize the given project descriptions to better align with the job requirements.\n            Emphasize technologies and achievements that are most relevant to the target job. Keep project names and structure unchanged but optimize descriptions.\n            Return the projects in the same format as provided, maintaining all original fields but with enhanced descriptions.").toList) ]

/-- Association lookup on string keys. -/
def lookupStr : List (Str × Str) → Str → Option Str
  | [], _ => none
  | (k, v) :: t, k' => if k = k' then some v else lookupStr t k'

/-- The _get_prompt_text lookup in fallback mode: the fallback dict with default "". -/
def fallbackPromptText (t : Str) : Str :=
  (lookupStr fallbackPrompts t).getD []

/-- ContextBuilder.build_job_context. -/
def buildJobContext (j : JobProfile) : Str :=
  joinSep ['\n']
    ([ "Job Title: ".toList ++ j.title,
       "Company: ".toList ++ j.company,
       "Description: ".toList ++ j.description ]
     ++ (if j.requirements.isEmpty then []
         else ["Requirements: ".toList ++ joinSep ", ".toList j.requirements])
     ++ (if j.preferred_skills.isEmpty then []
         else ["Preferred Skills: ".toList ++ joinSep ", ".toList j.preferred_skills])
     ++ (if j.industry.isEmpty then [] else ["Industry: ".toList ++ j.industry])
     ++ (if j.experience_level.isEmpty then []
         else ["Experience Level: ".toList ++ j.experience_level]))

/-- The _build_context_from_template format in fallback mode: the two-field format
(the prompt-type argument only selects config in the non-fallback mode). -/
def buildContextFromTemplate (_ptype : Str) (content : Str) (j : JobProfile) : Str :=
  "Job Context: ".toList ++ buildJobContext j ++ "\n\nOriginal Content: ".toList ++ content

/-- enhance_summary: none models the Python None result. -/
def enhanceSummary (client : AIClient) (currentSummary : Str) (j : JobProfile) : Option Str :=
  if (pyStrip currentSummary).isEmpty then none
  else
    let resp := client.call (fallbackPromptText "summary".toList)
      (buildContextFromTemplate "summary".toList currentSummary j) defaultModelParams
    if resp.success then some resp.content else none

/-- One line of the experience-highlight parse (optimize_experience lines
171-177): strip, keep "- "-prefixed lines with the prefix removed, keep
other non-blank lines not starting with a dash verbatim. -/
def keepHighlight (line : Str) : Option Str :=
  let l := pyStrip line
  if startsW "- ".toList l then some (l.drop 2)
  else if !l.isEmpty && !startsW "-".toList l then some l
  else none

/-- The experience-highlight parse of one response text. -/
def parseHighlightLines (content : Str) : List Str :=
  (splitNL content).filterMap keepHighlight

/-- Apply one transport response to one experience (optimize_experience
lines 169-186): on success and a non-empty parse the highlights are
replaced, otherwise the experience is kept unchanged. -/
def applyExpResponse (resp : AIResponse) (exp : Experience) : Experience :=
  if resp.success then
    let ch := parseHighlightLines resp.content
    if ch.isEmpty then exp else { exp with highlights := ch }
  else exp

/-- The per-experience body of optimize_experience: unedited highlights
preferred as source material, empty source skipped. -/
def optimizeOneExp (client : AIClient) (j : JobProfile) (exp : Experience) : Experience :=
  let highlightsToOptimize := if exp.unedited.isEmpty then exp.highlights else exp.unedited
  if highlightsToOptimize.isEmpty then exp
  else
    applyExpResponse
      (client.call (fallbackPromptText "experience".toList)
        (buildContextFromTemplate "experience".toList
          (joinSep ['\n'] (highlightsToOptimize.map (fun h => "- ".toList ++ h))) j)
        defaultModelParams)
      exp

/-- optimize_experience over the experience list. -/
def optimizeExperience (client : AIClient) (exps : List Experience) (j : JobProfile) :
    List Experience :=
  if exps.isEmpty then exps else exps.map (optimizeOneExp client j)

/-- The text block one skill category contributes in adjust_skills. -/
def skillBlock (c : SkillCategory) : Str :=
  c.category ++ ":\n".toList
  ++ c.skills.flatMap (fun s => "  - ".toList ++ s ++ ['\n'])
  ++ ['\n']

/-- The bulleted text format adjust_skills renders the categories to. -/
def renderSkillsText (skills : List SkillCategory) : Str :=
  skills.flatMap skillBlock

/-- Flush the accumulated category (appended only when the label and the
skill list are both non-empty, the Python truthiness of both). -/
def flushSkills (cur : Option Str) (curSkills : List Str) (acc : List SkillCategory) :
    List SkillCategory :=
  match cur with
  | some c => if !c.isEmpty && !curSkills.isEmpty then acc ++ [⟨c, curSkills⟩] else acc
  | none => acc

/-- One line of _parse_skills_response: the state is (open category label,
its skills so far, flushed categories). The "  - " branch of the source is
kept although it can never fire after the strip. -/
def skillsLineStep (st : Option Str × List Str × List SkillCategory) (line : Str) :
    Option Str × List Str × List SkillCategory :=
  let l := pyStrip line
  if l.isEmpty then st
  else if endsW ":".toList l && !startsW "-".toList l then
    (some (pyStrip l.dropLast), [], flushSkills st.1 st.2.1 st.2.2)
  else if startsW "- ".toList l || startsW "• ".toList l then
    (let sk := pyStrip (l.drop 2)
     if sk.isEmpty then st else (st.1, st.2.1 ++ [sk], st.2.2))
  else if startsW "  - ".toList l then
    (let sk := pyStrip (l.drop 4)
     if sk.isEmpty then st else (st.1, st.2.1 ++ [sk], st.2.2))
  else st

/-- The _parse_skills_response scan before the empty check: the scan plus the final
flush. -/
def parseSkillsList (content : Str) : List SkillCategory :=
  let st := (splitNL content).foldl skillsLineStep (none, [], [])
  flushSkills st.1 st.2.1 st.2.2

/-- The _parse_skills_response result: none models the Python None result for an
empty category list. -/
def parseSkillsResp (content : Str) : Option (List SkillCategory) :=
  let r := parseSkillsList content
  if r.isEmpty then none else some r

/-- adjust_skills. -/
def adjustSkills (client : AIClient) (skills : List SkillCategory) (j : JobProfile) :
    List SkillCategory :=
  if skills.isEmpty then skills
  else
    let resp := client.call (fallbackPromptText "skills".toList)
      (buildContextFromTemplate "skills".toList (pyStrip (renderSkillsText skills)) j)
      defaultModelParams
    if resp.success then
      match parseSkillsResp resp.content with
      | some adjusted => adjusted
      | none => skills
    else skills

/-- The text block one project contributes in optimize_projects. -/
def projectBlock (i : Nat) (p : ProjectData) : Str :=
  "Project ".toList ++ natStr (i+1) ++ ":\n".toList
  ++ "Name: ".toList ++ p.name ++ ['\n']
  ++ (match p.subtitle with
      | some s => if s.isEmpty then [] else "Subtitle: ".toList ++ s ++ ['\n']
      | none => [])
  ++ (match p.url with
      | some u => if u.isEmpty then [] else "URL: ".toList ++ u ++ ['\n']
      | none => [])
  ++ "Description: ".toList ++ p.description ++ ['\n']
  ++ (if p.technologies.isEmpty then []
      else "Technologies: ".toList ++ joinSep ", ".toList p.technologies ++ ['\n'])
  ++ ['\n']

/-- The text optimize_projects renders the project list to. -/
def renderProjectsText (ps : List ProjectData) : Str :=
  ps.enum.flatMap (fun p => projectBlock p.1 p.2)

/-- Replace the description of the project at a given position. -/
def setProjDescription : List ProjectData → Nat → Str → List ProjectData
  | [], _, _ => []
  | p :: rest, 0, nd => { p with description := nd } :: rest
  | p :: rest, Nat.succ i, nd => p :: setProjDescription rest i nd

/-- One line of _parse_projects_response: the state is (active project
index, projects so far); "Project N:" lines move the index, in-range
"Description:" lines overwrite one description. -/
def projLineStep (st : Int × List ProjectData) (line : Str) : Int × List ProjectData :=
  let l := pyStrip line
  if startsW "Project ".toList l ∧ l.contains ':' then
    match (pySplitWS l)[1]? with
    | some tok =>
      match pyIntOfStr (rstripColons tok) with
      | some n => (n - 1, st.2)
      | none => st
    | none => st
  else if startsW "Description:".toList l ∧ 0 ≤ st.1 ∧ st.1 < (st.2.length : Int) then
    let nd := pyStrip (l.drop 12)
    if nd.isEmpty then st else (st.1, setProjDescription st.2 st.1.toNat nd)
  else st

/-- _parse_projects_response: the scan over the response lines starting
from index -1 on a copy of the original projects (the try/except of the
source cannot fail in this total model). -/
def parseProjectsResp (content : Str) (original : List ProjectData) : List ProjectData :=
  ((splitNL content).foldl projLineStep (-1, original)).2

/-- optimize_projects. -/
def optimizeProjects (client : AIClient) (ps : List ProjectData) (j : JobProfile) :
    List ProjectData :=
  if ps.isEmpty then ps
  else
    let resp := client.call (fallbackPromptText "projects".toList)
      (buildContextFromTemplate "projects".toList (pyStrip (renderProjectsText ps)) j)
      defaultModelParams
    if resp.success then
      let optimized := parseProjectsResp resp.content ps
      if optimized.isEmpty then ps else optimized
    else ps

/-- customize_for_job: deep copy (identity on immutable values), the
availability probe, then the four sections in source order. -/
def customizeForJob (client : AIClient) (resume : ResumeData) (j : JobProfile) : ResumeData :=
  if !client.available then resume
  else
    let c1 :=
      match resume.summary with
      | some s =>
        if s.isEmpty then resume
        else
          match enhanceSummary client s j with
          | some cs => if cs.isEmpty then resume else { resume with summary := some cs }
          | none => resume
      | none => resume
    let c2 := { c1 with experiences := optimizeExperience client c1.experiences j }
    let c3 := { c2 with skills := adjustSkills client c2.skills j }
    { c3 with projects := optimizeProjects client c3.projects j }

/-! General helper lemmas about the string primitives. -/

theorem dropWhile_eq_self_of_head {p : Char → Bool} {s : Str}
    (h : ∀ c, s.head? = some c → p c = false) : s.dropWhile p = s := by
  cases s with
  | nil => rfl
  | cons a t => rw [List.dropWhile_cons, h a rfl]; simp

theorem forall_mem_dropWhile_iff {p : Char → Bool} {s : Str} :
    (∀ c ∈ s.dropWhile p, p c = true) ↔ ∀ c ∈ s, p c = true := by
  constructor
  · intro h c hc
    rw [← List.takeWhile_append_dropWhile p s] at hc
    rcases List.mem_append.mp hc with h1 | h2
    · exact List.mem_takeWhile_imp h1
    · exact h c h2
  · intro h c hc
    exact h c ((List.dropWhile_sublist p).mem hc)

theorem pyStrip_eq_nil_iff {s : Str} :
    pyStrip s = [] ↔ ∀ c ∈ s, isPySpace c = true := by
  unfold pyStrip
  rw [List.reverse_eq_nil_iff, List.dropWhile_eq_nil_iff]
  constructor
  · intro h c hc
    have h2 : ∀ d ∈ s.dropWhile isPySpace, isPySpace d = true :=
      fun d hd => h d (List.mem_reverse.mpr hd)
    exact forall_mem_dropWhile_iff.mp h2 c hc
  · intro h c hc
    exact forall_mem_dropWhile_iff.mpr h c (List.mem_reverse.mp hc)

theorem pyStrip_ne_nil_of_mem {s : Str} {c : Char} (hc : c ∈ s)
    (hs : isPySpace c = false) : pyStrip s ≠ [] := by
  intro h
  have := pyStrip_eq_nil_iff.mp h c hc
  rw [this] at hs
  exact absurd hs (by simp)

theorem pyStrip_eq_self {s : Str}
    (h1 : ∀ c, s.head? = some c → isPySpace c = false)
    (h2 : ∀ c, s.getLast? = some c → isPySpace c = false) : pyStrip s = s := by
  unfold pyStrip
  rw [dropWhile_eq_self_of_head h1]
  rw [dropWhile_eq_self_of_head (by
    intro c hc
    rw [List.head?_reverse] at hc
    exact h2 c hc)]
  exact List.reverse_reverse s

theorem splitOnC_no_sep (sep : Char) (a : Str) (h : ∀ c ∈ a, ¬c = sep) :
    splitOnC sep a = [a] := by
  induction a with
  | nil => rfl
  | cons x xs ih =>
    have hx : ¬x = sep := h x (by simp)
    simp only [splitOnC, if_neg hx]
    rw [ih (fun c hc => h c (by simp [hc]))]

theorem splitOnC_append (sep : Char) (a b : Str) (h : ∀ c ∈ a, ¬c = sep) :
    splitOnC sep (a ++ sep :: b) = a :: splitOnC sep b := by
  induction a with
  | nil => simp [splitOnC]
  | cons x xs ih =>
    have hx : ¬x = sep := h x (by simp)
    simp only [List.cons_append, splitOnC, if_neg hx]
    rw [show xs.append (sep :: b) = xs ++ sep :: b from rfl]
    rw [ih (fun c hc => h c (by simp [hc]))]

/-! Markup escaper lemmas and the escaping claims. -/

/-- The substitution table as the spec states it: the nine reserved
characters (backslash, ampersand, percent, dollar, hash, caret,
underscore, both braces, tilde) with their literal-safe sequences. -/
def specEscTable : List (Char × Str) :=
  [ ('\\', "\\textbackslash".toList ++ [lbChar, rbChar]),
    ('&', "\\&".toList),
    ('%', "\\%".toList),
    ('$', "\\$".toList),
    ('#', "\\#".toList),
    ('^', "\\textasciicircum".toList ++ [lbChar, rbChar]),
    ('_', "\\_".toList),
    (lbChar, ['\\', lbChar]),
    (rbChar, ['\\', rbChar]),
    ('~', "\\textasciitilde".toList ++ [lbChar, rbChar]) ]

/-- Spec-side escaping of one character: the table entry when the
character is in the table, the character itself otherwise. -/
def specEscChar (c : Char) : Str :=
  match specEscTable.find? (fun p => c = p.1) with
  | some p => p.2
  | none => [c]

theorem latexEscapeChar_eq_spec (c : Char) : latexEscapeChar c = specEscChar c := by
  by_cases h1 : c = '\\'
  · subst h1; rfl
  by_cases h2 : c = '&'
  · subst h2; rfl
  by_cases h3 : c = '%'
  · subst h3; rfl
  by_cases h4 : c = '$'
  · subst h4; rfl
  by_cases h5 : c = '#'
  · subst h5; rfl
  by_cases h6 : c = '^'
  · subst h6; rfl
  by_cases h7 : c = '_'
  · subst h7; rfl
  by_cases h8 : c = lbChar
  · subst h8; rfl
  by_cases h9 : c = rbChar
  · subst h9; rfl
  by_cases h10 : c = '~'
  · subst h10; rfl
  simp [latexEscapeChar, specEscChar, specEscTable, List.find?,
    h1, h2, h3, h4, h5, h6, h7, h8, h9, h10]

theorem latexEscape_flatMap (s : Str) : latexEscape s = s.flatMap latexEscapeChar := by
  induction s with
  | nil => rfl
  | cons c t ih => simp [latexEscape, ih]

theorem latexEscapeChar_len_pos (c : Char) : 1 ≤ (latexEscapeChar c).length := by
  unfold latexEscapeChar
  repeat' split
  all_goals simp

theorem latexEscape_len_ge (s : Str) : s.length ≤ (latexEscape s).length := by
  induction s with
  | nil => simp [latexEscape]
  | cons c t ih =>
    have := latexEscapeChar_len_pos c
    simp only [latexEscape, List.length_append, List.length_cons]
    omega

theorem backslash_mem_latexEscape {s : Str} (h : '\\' ∈ s) : '\\' ∈ latexEscape s := by
  induction s with
  | nil => simp at h
  | cons c t ih =>
    simp only [latexEscape, List.mem_append]
    by_cases hc : c = '\\'
    · subst hc
      left
      decide
    · rcases List.mem_cons.mp h with h1 | h2
      · exact absurd h1.symm hc
      · exact Or.inr (ih h2)

theorem latexEscape_len_gt {s : Str} (h : '\\' ∈ s) : s.length < (latexEscape s).length := by
  induction s with
  | nil => simp at h
  | cons c t ih =>
    simp only [latexEscape, List.length_append, List.length_cons]
    by_cases hc : c = '\\'
    · subst hc
      have h1 := latexEscape_len_ge t
      have h2 : (latexEscapeChar '\\').length = 16 := by decide
      omega
    · rcases List.mem_cons.mp h with h1 | h2
      · exact absurd h1.symm hc
      · have := latexEscapeChar_len_pos c
        have := ih h2
        omega

/-- C8: escape stringifies non-string inputs first, then replaces every
character in the fixed substitution table by its literal-safe sequence
and passes every other character through unchanged. -/
theorem latex_escape_table_c8 :
    (∀ v : PyVal, latexEscapeVal v = latexEscape (pyStr v)) ∧
    (∀ s : Str, latexEscape s = s.flatMap specEscChar) := by
  constructor
  · intro v
    cases v <;> rfl
  · intro s
    rw [latexEscape_flatMap]
    exact List.flatMap_congr (fun c _ => latexEscapeChar_eq_spec c)

/-- C9: escaping is not idempotent on inputs holding a backslash, because
the first pass introduces backslashes that the second pass escapes again. -/
theorem latex_escape_not_idempotent_c9 :
    ∀ s : Str, '\\' ∈ s → latexEscape (latexEscape s) ≠ latexEscape s := by
  intro s hs heq
  have h1 : '\\' ∈ latexEscape s := backslash_mem_latexEscape hs
  have h2 := latexEscape_len_gt h1
  rw [heq] at h2
  omega

/-- C9 witness: the non-idempotence at the concrete input a backslash b. -/
theorem latex_escape_not_idempotent_c9_witness :
    latexEscape (latexEscape "a\\b".toList) ≠ latexEscape "a\\b".toList :=
  latex_escape_not_idempotent_c9 "a\\b".toList (by decide)

/-! Validation lemmas and the validation-completeness claim. -/

theorem skillsErrors_mem : ∀ (l : List SkillCategory) (k : Nat) (c : SkillCategory),
    c ∈ l → c.skills = [] →
    ∃ i, ("Skill category ".toList ++ natStr (i+1)
      ++ ": At least one skill is required".toList) ∈ skillsErrors k l := by
  intro l
  induction l with
  | nil => intro k c hc; simp at hc
  | cons c0 rest ih =>
    intro k c hc hcs
    rcases List.mem_cons.mp hc with h1 | h2
    · subst h1
      refine ⟨k, ?_⟩
      have he : c.skills.isEmpty = true := by simp [hcs]
      simp [skillsErrors, he]
    · obtain ⟨i, hi⟩ := ih (k+1) c h2 hcs
      refine ⟨i, ?_⟩
      simp only [skillsErrors, List.mem_append]
      tauto

/-- C5: validate reports every structural violation, not only the first:
a blank name, a blank email and a zero-skill category each contribute
their own message, and the three messages are pairwise distinct. -/
theorem validate_completeness_c5 (r : ResumeData)
    (h1 : pyStrip r.basic.name = [])
    (h2 : pyStrip r.basic.contact.email = [])
    (h3 : ∃ c ∈ r.skills, c.skills = []) :
    ∃ m1 m2 m3, m1 ∈ validateResume r ∧ m2 ∈ validateResume r ∧ m3 ∈ validateResume r ∧
      m1 ≠ m2 ∧ m1 ≠ m3 ∧ m2 ≠ m3 := by
  obtain ⟨c, hc, hcs⟩ := h3
  obtain ⟨i, hmem⟩ := skillsErrors_mem r.skills 0 c hc hcs
  have hm1 : "Name is required".toList ∈ basicErrors r.basic := by
    simp [basicErrors, h1]
  have hm2 : "Email is required".toList ∈ basicErrors r.basic := by
    simp [basicErrors, h2]
  refine ⟨"Name is required".toList, "Email is required".toList,
    "Skill category ".toList ++ natStr (i+1) ++ ": At least one skill is required".toList,
    ?_, ?_, ?_, ?_, ?_, ?_⟩
  · simp only [validateResume, List.mem_append]
    tauto
  · simp only [validateResume, List.mem_append]
    tauto
  · simp only [validateResume, List.mem_append]
    tauto
  · intro he
    simp at he
  · intro he
    have e1 : ("Name is required".toList : Str).head? = some 'N' := rfl
    have e2 : (("Skill category ".toList ++ natStr (i+1)
      ++ ": At least one skill is required".toList : Str)).head? = some 'S' := rfl
    rw [he, e2] at e1
    simp at e1
  · intro he
    have e1 : ("Email is required".toList : Str).head? = some 'E' := rfl
    have e2 : (("Skill category ".toList ++ natStr (i+1)
      ++ ": At least one skill is required".toList : Str)).head? = some 'S' := rfl
    rw [he, e2] at e1
    simp at e1

/-- A record with a blank name, a blank email and one zero-skill category. -/
def sampleBadResume : ResumeData :=
  { basic := { name := [], address := ["x".toList],
               contact := { email := [], phone := "5".toList }, websites := [] },
    summary := none, experiences := [], education := [], projects := [], research := [],
    skills := [⟨"Tools".toList, []⟩] }

/-- C5 witness: the three distinct messages at the concrete bad record. -/
theorem validate_completeness_c5_witness :
    ∃ m1 m2 m3, m1 ∈ validateResume sampleBadResume ∧ m2 ∈ validateResume sampleBadResume ∧
      m3 ∈ validateResume sampleBadResume ∧ m1 ≠ m2 ∧ m1 ≠ m3 ∧ m2 ≠ m3 :=
  validate_completeness_c5 sampleBadResume rfl rfl
    ⟨⟨"Tools".toList, []⟩, by simp [sampleBadResume], rfl⟩

/-! Experience-highlight parsing: the claim-side keep rule and C4. -/

theorem startsW_ne_nil {p : Char} {ps s : Str} (h : startsW (p :: ps) s = true) : s ≠ [] := by
  intro he
  subst he
  simp [startsW] at h

/-- The keep rule as the claim words it: a trimmed line is a highlight
exactly when it is non-blank and either starts with "- " (prefix
stripped) or does not start with "-" at all (kept verbatim). -/
def specKeepHighlight (line : Str) : Option Str :=
  let t := pyStrip line
  if !t.isEmpty && (startsW "- ".toList t || !startsW "-".toList t) then
    some (if startsW "- ".toList t then t.drop 2 else t)
  else none

theorem keepHighlight_eq_spec (l : Str) : keepHighlight l = specKeepHighlight l := by
  unfold keepHighlight specKeepHighlight
  cases hA : startsW "- ".toList (pyStrip l) with
  | true =>
    have hne : pyStrip l ≠ [] := startsW_ne_nil hA
    have he : (pyStrip l).isEmpty = false := by
      simpa using hne
    simp only [show ("- ".toList : Str) = ['-', ' '] from rfl] at hA
    simp [hA, he]
  | false =>
    simp only [show ("- ".toList : Str) = ['-', ' '] from rfl] at hA
    simp [hA]

/-- C4: the experience-highlight parse keeps a trimmed line exactly under
the claim's rule, parses "- A\n- B\nC" to ["A", "B", "C"], and an empty
parse leaves the experience (and so its highlight list) unchanged. -/
theorem experience_highlight_parse_c4 :
    (∀ s : Str, parseHighlightLines s = (splitNL s).filterMap specKeepHighlight) ∧
    parseHighlightLines "- A\n- B\nC".toList = ["A".toList, "B".toList, "C".toList] ∧
    (∀ (resp : AIResponse) (exp : Experience), parseHighlightLines resp.content = [] →
      applyExpResponse resp exp = exp) := by
  refine ⟨?_, by decide, ?_⟩
  · intro s
    unfold parseHighlightLines
    induction splitNL s with
    | nil => rfl
    | cons l ls ih => simp [List.filterMap_cons, keepHighlight_eq_spec l, ih]
  · intro resp exp h
    unfold applyExpResponse
    rw [h]
    simp

/-- A concrete experience used by the C4 witness. -/
def sampleExp : Experience :=
  { company := "Acme".toList, titles := [], highlights := ["Did X".toList], unedited := [] }

/-- C4 witness: a response whose single line "-x" parses to nothing keeps
the experience unchanged, at a concrete experience. -/
theorem experience_highlight_parse_c4_witness :
    applyExpResponse ⟨true, "-x".toList, none, none⟩ sampleExp = sampleExp :=
  experience_highlight_parse_c4.2.2 _ sampleExp (by decide)

/-! The skills-parser invariant C10. -/

theorem flushSkills_nonempty {cur : Option Str} {sk : List Str} {acc : List SkillCategory}
    (h : ∀ c ∈ acc, c.skills ≠ []) :
    ∀ c ∈ flushSkills cur sk acc, c.skills ≠ [] := by
  intro c hc
  unfold flushSkills at hc
  cases cur with
  | none => exact h c hc
  | some c0 =>
    dsimp only at hc
    by_cases hcond : (!c0.isEmpty && !sk.isEmpty) = true
    · rw [if_pos hcond] at hc
      rcases List.mem_append.mp hc with h1 | h2
      · exact h c h1
      · have : c = ⟨c0, sk⟩ := by simpa using h2
        subst this
        simp only [Bool.and_eq_true, Bool.not_eq_true'] at hcond
        simpa using hcond.2
    · rw [if_neg hcond] at hc
      exact h c hc

theorem skillsLineStep_nonempty {st : Option Str × List Str × List SkillCategory} {line : Str}
    (h : ∀ c ∈ st.2.2, c.skills ≠ []) :
    ∀ c ∈ (skillsLineStep st line).2.2, c.skills ≠ [] := by
  intro c hc
  unfold skillsLineStep at hc
  dsimp only at hc
  split at hc
  · exact h c hc
  · split at hc
    · exact flushSkills_nonempty h c hc
    · split at hc
      · split at hc
        · exact h c hc
        · exact h c hc
      · split at hc
        · split at hc
          · exact h c hc
          · exact h c hc
        · exact h c hc

theorem foldl_skillsLineStep_nonempty :
    ∀ (lines : List Str) (st : Option Str × List Str × List SkillCategory),
    (∀ c ∈ st.2.2, c.skills ≠ []) →
    ∀ c ∈ (lines.foldl skillsLineStep st).2.2, c.skills ≠ [] := by
  intro lines
  induction lines with
  | nil => intro st h; exact h
  | cons l ls ih =>
    intro st h
    exact ih (skillsLineStep st l) (skillsLineStep_nonempty h)

theorem parseSkillsList_nonempty (content : Str) :
    ∀ c ∈ parseSkillsList content, c.skills ≠ [] := by
  intro c hc
  unfold parseSkillsList at hc
  exact flushSkills_nonempty
    (foldl_skillsLineStep_nonempty (splitNL content) (none, [], []) (by simp)) c hc

/-- C10: the skills response parser never returns a category with zero
skills: a header followed by no skill lines is never flushed. -/
theorem skills_parser_no_empty_category_c10 :
    ∀ (content : Str) (cats : List SkillCategory) (c : SkillCategory),
    parseSkillsResp content = some cats → c ∈ cats → c.skills ≠ [] := by
  intro content cats c hp hc
  unfold parseSkillsResp at hp
  dsimp only at hp
  split at hp
  · exact absurd hp (by simp)
  · have : cats = parseSkillsList content := by
      simpa using hp.symm
    subst this
    exact parseSkillsList_nonempty content c hc

/-- C10 witness: at the concrete response "A:\n- x" the returned category
has a non-empty skill list. -/
theorem skills_parser_no_empty_category_c10_witness :
    (⟨"A".toList, ["x".toList]⟩ : SkillCategory).skills ≠ [] :=
  skills_parser_no_empty_category_c10 "A:\n- x".toList
    [⟨"A".toList, ["x".toList]⟩] ⟨"A".toList, ["x".toList]⟩ (by decide) (by decide)

/-! Helpers about trimmed strings, used by the skills round-trip. -/

theorem dropWhile_length_le (p : Char → Bool) (l : Str) :
    (l.dropWhile p).length ≤ l.length :=
  (List.dropWhile_sublist p).length_le

theorem pyStrip_length_le (s : Str) : (pyStrip s).length ≤ s.length := by
  unfold pyStrip
  calc ((s.dropWhile isPySpace).reverse.dropWhile isPySpace).reverse.length
      = ((s.dropWhile isPySpace).reverse.dropWhile isPySpace).length := by simp
    _ ≤ (s.dropWhile isPySpace).reverse.length := dropWhile_length_le _ _
    _ = (s.dropWhile isPySpace).length := by simp
    _ ≤ s.length := dropWhile_length_le _ _

theorem pyStrip_cons_space {c : Char} (hc : isPySpace c = true) (l : Str) :
    pyStrip (c :: l) = pyStrip l := by
  unfold pyStrip
  rw [List.dropWhile_cons, if_pos hc]

theorem pyStrip_trimmed_head {s : Str} (h : pyStrip s = s) :
    ∀ c, s.head? = some c → isPySpace c = false := by
  intro c hc
  by_contra hsp
  have hsp' : isPySpace c = true := by simpa using hsp
  cases s with
  | nil => simp at hc
  | cons a t =>
    have ha : a = c := by simpa using hc
    subst ha
    have h2 : (pyStrip (a :: t)).length ≤ t.length := by
      rw [pyStrip_cons_space hsp']
      exact pyStrip_length_le t
    rw [h] at h2
    simp at h2

theorem pyStrip_trimmed_last {s : Str} (h : pyStrip s = s) :
    ∀ c, s.getLast? = some c → isPySpace c = false := by
  intro c hc
  by_contra hsp
  have hsp' : isPySpace c = true := by simpa using hsp
  have hne : s ≠ [] := by intro he; subst he; simp at hc
  cases hd : s.dropWhile isPySpace with
  | nil =>
    have hz : pyStrip s = [] := by unfold pyStrip; rw [hd]; rfl
    rw [h] at hz
    exact hne hz
  | cons d ds =>
    have hsuf : ∃ pre, pre ++ (d :: ds) = s := by
      obtain ⟨pre, hpre⟩ :=
        (List.dropWhile_suffix isPySpace : List.dropWhile isPySpace s <:+ s)
      exact ⟨pre, by rw [hd] at hpre; exact hpre⟩
    obtain ⟨pre, hpre⟩ := hsuf
    have hlast : (d :: ds).getLast? = some c := by
      rw [← hpre] at hc
      rwa [List.getLast?_append_of_ne_nil pre (by simp)] at hc
    have hrev : ((d :: ds).reverse).head? = some c := by
      rw [List.head?_reverse]
      exact hlast
    cases hr : (d :: ds).reverse with
    | nil => simp at hr
    | cons r rs =>
      have hrc : r = c := by rw [hr] at hrev; simpa using hrev
      subst hrc
      have h2 : (pyStrip s).length ≤ rs.length := by
        unfold pyStrip
        rw [hd, hr, List.dropWhile_cons, if_pos hsp']
        calc (rs.dropWhile isPySpace).reverse.length
            = (rs.dropWhile isPySpace).length := by simp
          _ ≤ rs.length := dropWhile_length_le _ _
      have h4 : (d :: ds).length = rs.length + 1 := by
        have := congrArg List.length hr
        simpa using this
      have h5 : (d :: ds).length ≤ s.length := by
        have := dropWhile_length_le isPySpace s
        rw [hd] at this
        exact this
      rw [h] at h2
      omega

theorem endsW_concat (x : Char) (a : Str) : endsW [x] (a ++ [x]) = true := by
  simp [endsW, List.reverse_append, startsW]

theorem startsW_single_append (c : Char) {a : Str} (hne : a ≠ []) (x : Str) :
    startsW [c] (a ++ x) = startsW [c] a := by
  cases a with
  | nil => exact absurd rfl hne
  | cons a0 t => simp [startsW]

theorem pyStrip_eq_self_of_trimmed_concat {a : Str} {x : Char}
    (ha : pyStrip a = a) (hane : a ≠ []) (hx : isPySpace x = false) :
    pyStrip (a ++ [x]) = a ++ [x] := by
  apply pyStrip_eq_self
  · intro c hc
    cases a with
    | nil => exact absurd rfl hane
    | cons a0 t =>
      have h0 : a0 = c := by simpa using hc
      rw [← h0]
      exact pyStrip_trimmed_head ha a0 rfl
  · intro c hc
    rw [List.getLast?_concat] at hc
    have : x = c := by simpa using hc
    subst this
    exact hx

/-! The skills round-trip: line structure of the rendered text, the
parser's behaviour on those lines, counterexample and amended claim. -/

/-- A well-formed skill string for the round trip: non-empty, trimmed,
newline-free. -/
def goodSkillStr (s : Str) : Prop := s ≠ [] ∧ pyStrip s = s ∧ '\n' ∉ s

/-- A well-formed category for the round trip: non-empty trimmed label
not starting with a dash and newline-free, with at least one well-formed
skill. -/
def goodCat (c : SkillCategory) : Prop :=
  c.category ≠ [] ∧ pyStrip c.category = c.category ∧ startsW ['-'] c.category = false ∧
  '\n' ∉ c.category ∧ c.skills ≠ [] ∧ ∀ s ∈ c.skills, goodSkillStr s

/-- The line list the rendered skills text splits into (before the final
empty line). -/
def linesOfSkills (cats : List SkillCategory) : List Str :=
  cats.flatMap (fun c =>
    (c.category ++ [':']) :: (c.skills.map (fun s => "  - ".toList ++ s) ++ [[]]))

theorem splitNL_flat (ss : List Str) (x : Str) (h : ∀ s ∈ ss, '\n' ∉ s) :
    splitNL (ss.flatMap (fun s => "  - ".toList ++ s ++ ['\n']) ++ x)
      = ss.map (fun s => "  - ".toList ++ s) ++ splitNL x := by
  induction ss with
  | nil => simp
  | cons s ss' ih =>
    have hs : '\n' ∉ s := h s (by simp)
    have hline : ∀ c ∈ ("  - ".toList ++ s : Str), ¬c = '\n' := by
      intro c hc
      rcases List.mem_append.mp hc with h1 | h2
      · intro he; subst he; simp at h1
      · intro he; subst he; exact hs h2
    have harr : ((s :: ss').flatMap (fun s => "  - ".toList ++ s ++ ['\n'])) ++ x
        = ("  - ".toList ++ s) ++ '\n' :: ((ss'.flatMap (fun s => "  - ".toList ++ s ++ ['\n'])) ++ x) := by
      simp
    have ih' := ih (fun s hs2 => h s (by simp [hs2]))
    unfold splitNL at ih' ⊢
    rw [harr, splitOnC_append '\n' _ _ hline, ih']
    simp

theorem splitNL_render (cats : List SkillCategory) (hgood : ∀ c ∈ cats, goodCat c) :
    splitNL (renderSkillsText cats) = linesOfSkills cats ++ [[]] := by
  induction cats with
  | nil => rfl
  | cons c rest ih =>
    obtain ⟨hc1, hc2, hc3, hc4, hc5, hc6⟩ := hgood c (by simp)
    have hhead : ∀ d ∈ (c.category ++ [':'] : Str), ¬d = '\n' := by
      intro d hd
      rcases List.mem_append.mp hd with h1 | h2
      · intro he; subst he; exact hc4 h1
      · intro he; subst he; simp at h2
    have ih' := ih (fun c2 hc2m => hgood c2 (by simp [hc2m]))
    have hflat := splitNL_flat c.skills ('\n' :: renderSkillsText rest)
      (fun s hs => (hc6 s hs).2.2)
    have harr : renderSkillsText (c :: rest)
        = (c.category ++ [':']) ++ '\n' ::
          (c.skills.flatMap (fun s => "  - ".toList ++ s ++ ['\n'])
            ++ ('\n' :: renderSkillsText rest)) := by
      simp [renderSkillsText, skillBlock]
    unfold splitNL at ih' hflat ⊢
    rw [harr, splitOnC_append '\n' _ _ hhead, hflat]
    rw [show splitOnC '\n' ('\n' :: renderSkillsText rest)
      = [] :: splitOnC '\n' (renderSkillsText rest) from by simp [splitOnC]]
    rw [ih']
    simp [linesOfSkills]

theorem skillsLineStep_blank (st : Option Str × List Str × List SkillCategory) :
    skillsLineStep st [] = st := by
  unfold skillsLineStep
  simp [pyStrip]

theorem skillsLineStep_header (cat : Str) (st : Option Str × List Str × List SkillCategory)
    (hcat : cat ≠ []) (htrim : pyStrip cat = cat) (hdash : startsW ['-'] cat = false) :
    skillsLineStep st (cat ++ [':']) = (some cat, [], flushSkills st.1 st.2.1 st.2.2) := by
  have hstrip : pyStrip (cat ++ [':']) = cat ++ [':'] :=
    pyStrip_eq_self_of_trimmed_concat htrim hcat (by decide)
  have hne : (cat ++ [':'] : Str) ≠ [] := by simp
  have hend : endsW ":".toList (cat ++ [':']) = true := endsW_concat ':' cat
  have hdash2 : startsW "-".toList (cat ++ [':']) = false := by
    rw [show ("-".toList : Str) = ['-'] from rfl, startsW_single_append '-' hcat [':']]
    exact hdash
  unfold skillsLineStep
  rw [hstrip]
  rw [if_neg (by simpa using hne)]
  rw [if_pos (by rw [hend, hdash2]; rfl)]
  rw [List.dropLast_concat, htrim]

theorem skillsLineStep_skill (s : Str) (st : Option Str × List Str × List SkillCategory)
    (hs : s ≠ []) (htrim : pyStrip s = s) :
    skillsLineStep st ("  - ".toList ++ s) = (st.1, st.2.1 ++ [s], st.2.2) := by
  have h1 : pyStrip ("  - ".toList ++ s) = ['-', ' '] ++ s := by
    rw [show ("  - ".toList ++ s : Str) = ' ' :: ' ' :: (['-', ' '] ++ s) from rfl]
    rw [pyStrip_cons_space (by decide), pyStrip_cons_space (by decide)]
    apply pyStrip_eq_self
    · intro c hc
      have : '-' = c := by simpa using hc
      rw [← this]
      decide
    · intro c hc
      rw [show (['-', ' '] ++ s : Str) = ['-'] ++ (' ' :: s) from rfl] at hc
      rw [List.getLast?_append_of_ne_nil ['-'] (by simp)] at hc
      cases hs2 : s with
      | nil => exact absurd hs2 hs
      | cons s0 t =>
        rw [hs2] at hc
        rw [show (' ' :: s0 :: t : Str) = [' '] ++ (s0 :: t) from rfl] at hc
        rw [List.getLast?_append_of_ne_nil [' '] (by simp)] at hc
        rw [← hs2] at hc
        exact pyStrip_trimmed_last htrim c hc
  have hdashsp : startsW "- ".toList (['-', ' '] ++ s) = true := by simp [startsW]
  have hdash : startsW "-".toList (['-', ' '] ++ s) = true := by simp [startsW]
  unfold skillsLineStep
  rw [h1]
  rw [if_neg (by simp)]
  rw [if_neg (by rw [hdash]; simp)]
  rw [if_pos (by rw [hdashsp]; rfl)]
  have hdrop : (['-', ' '] ++ s : Str).drop 2 = s := rfl
  rw [hdrop, htrim]
  rw [if_neg (by simpa using hs)]

theorem foldl_skill_lines (ss : List Str) (rest : List Str)
    (h : ∀ s ∈ ss, s ≠ [] ∧ pyStrip s = s) :
    ∀ st : Option Str × List Str × List SkillCategory,
    ((ss.map (fun s => "  - ".toList ++ s)) ++ rest).foldl skillsLineStep st
      = rest.foldl skillsLineStep (st.1, st.2.1 ++ ss, st.2.2) := by
  induction ss with
  | nil => intro st; simp
  | cons s ss' ih =>
    intro st
    obtain ⟨hs1, hs2⟩ := h s (by simp)
    simp only [List.map_cons, List.cons_append, List.foldl_cons]
    rw [skillsLineStep_skill s st hs1 hs2]
    rw [ih (fun s2 hs2m => h s2 (by simp [hs2m])) _]
    simp

theorem foldl_linesOfSkills (cats : List SkillCategory) (hgood : ∀ c ∈ cats, goodCat c) :
    ∀ st : Option Str × List Str × List SkillCategory,
    flushSkills ((linesOfSkills cats ++ [[]]).foldl skillsLineStep st).1
      ((linesOfSkills cats ++ [[]]).foldl skillsLineStep st).2.1
      ((linesOfSkills cats ++ [[]]).foldl skillsLineStep st).2.2
      = flushSkills st.1 st.2.1 st.2.2 ++ cats := by
  induction cats with
  | nil =>
    intro st
    simp only [linesOfSkills, List.flatMap_nil, List.nil_append, List.foldl_cons,
      List.foldl_nil, skillsLineStep_blank]
    simp
  | cons c rest ih =>
    intro st
    obtain ⟨hc1, hc2, hc3, hc4, hc5, hc6⟩ := hgood c (by simp)
    have harr : linesOfSkills (c :: rest) ++ [[]]
        = (c.category ++ [':']) :: ((c.skills.map (fun s => "  - ".toList ++ s))
            ++ ([] :: (linesOfSkills rest ++ [[]]))) := by
      simp [linesOfSkills]
    rw [harr]
    simp only [List.foldl_cons]
    rw [skillsLineStep_header c.category st hc1 hc2 hc3]
    rw [foldl_skill_lines c.skills _ (fun s hs => ⟨(hc6 s hs).1, (hc6 s hs).2.1⟩) _]
    simp only [List.foldl_cons, skillsLineStep_blank]
    rw [ih (fun c2 hm => hgood c2 (by simp [hm])) _]
    have hflush : flushSkills (some c.category) ([] ++ c.skills)
        (flushSkills st.1 st.2.1 st.2.2)
        = flushSkills st.1 st.2.1 st.2.2 ++ [c] := by
      have h1 : c.category.isEmpty = false := by simpa using hc1
      have h2 : c.skills.isEmpty = false := by simpa using hc5
      simp only [flushSkills, List.nil_append, h1, h2, Bool.not_false, Bool.and_self, if_pos]
    rw [hflush]
    simp

/-- C3 counterexample: with the single category A holding the one skill
" B" (leading space), parsing the rendered text yields the trimmed skill
"B", not " B", so the round trip fails as universally stated. -/
theorem skills_roundtrip_counterexample_c3 :
    parseSkillsResp (renderSkillsText [⟨"A".toList, [" B".toList]⟩])
      ≠ some [⟨"A".toList, [" B".toList]⟩] := by decide

/-- C3 amended: the round trip reconstructs the categories exactly when
the list is non-empty and every label and skill is non-empty, trimmed and
newline-free, and no label starts with a dash. -/
theorem skills_roundtrip_amended_c3 (cats : List SkillCategory)
    (hne : cats ≠ []) (hgood : ∀ c ∈ cats, goodCat c) :
    parseSkillsResp (renderSkillsText cats) = some cats := by
  have hl := splitNL_render cats hgood
  have hrun := foldl_linesOfSkills cats hgood (none, [], [])
  simp only [parseSkillsResp, parseSkillsList]
  rw [hl, hrun]
  have hce : cats.isEmpty = false := by simpa using hne
  simp [flushSkills, hce]

/-- C3 witness: the round trip at the concrete well-formed category A
with the skill B. -/
theorem skills_roundtrip_amended_c3_witness :
    parseSkillsResp (renderSkillsText [⟨"A".toList, ["B".toList]⟩])
      = some [⟨"A".toList, ["B".toList]⟩] :=
  skills_roundtrip_amended_c3 _ (by decide) (by
    intro c hc
    have hc2 : c = ⟨"A".toList, ["B".toList]⟩ := by simpa using hc
    subst hc2
    refine ⟨by decide, by decide, by decide, by decide, by decide, ?_⟩
    intro s hs
    have hs2 : s = "B".toList := by simpa using hs
    subst hs2
    exact ⟨by decide, by decide, by decide⟩)

/-! Scanner lemmas shared by the template-engine claims: literal prefix
stripping, maximal runs, skipping a non-brace character, and passing an
entire brace-free prefix through each processor unchanged. -/

theorem stripLit_append (p r : Str) : stripLit p (p ++ r) = some r := by
  induction p with
  | nil => rfl
  | cons a ps ih => simp [stripLit, ih]

theorem takeWhile_append_stop {p : Char → Bool} {a : Str} (c : Char) (b : Str)
    (ha : ∀ x ∈ a, p x = true) (hc : p c = false) :
    (a ++ c :: b).takeWhile p = a ∧ (a ++ c :: b).dropWhile p = c :: b := by
  induction a with
  | nil => simp [List.takeWhile_cons, List.dropWhile_cons, hc]
  | cons x xs ih =>
    have hx : p x = true := ha x (by simp)
    obtain ⟨ih1, ih2⟩ := ih (fun y hy => ha y (by simp [hy]))
    simp [List.takeWhile_cons, List.dropWhile_cons, hx, ih1, ih2]

theorem stripLit_cons_ne {p c : Char} (h : ¬p = c) (ps cs : Str) :
    stripLit (p :: ps) (c :: cs) = none := by
  simp [stripLit, h]

theorem tryVar_skip {c : Char} (h : c ≠ lbChar) (t : Str) : tryVar (c :: t) = none := by
  unfold tryVar
  rw [show (brace3 : Str) = lbChar :: [lbChar, lbChar] from rfl]
  rw [stripLit_cons_ne (fun he => h he.symm)]
  rfl

theorem tryIf_skip {c : Char} (h : c ≠ lbChar) (t : Str) : tryIf (c :: t) = none := by
  unfold tryIf
  rw [show (ifOpen : Str) = lbChar :: "% if ".toList from rfl]
  rw [stripLit_cons_ne (fun he => h he.symm)]
  rfl

theorem tryFor_skip {c : Char} (h : c ≠ lbChar) (t : Str) : tryFor (c :: t) = none := by
  unfold tryFor
  rw [show (forOpen : Str) = lbChar :: "% for ".toList from rfl]
  rw [stripLit_cons_ne (fun he => h he.symm)]
  rfl

theorem processVariables_passthrough (ctx : Ctx) (pre rest : Str)
    (hpre : ∀ c ∈ pre, c ≠ lbChar) :
    processVariables ctx (pre ++ rest) = pre ++ processVariables ctx rest := by
  induction pre with
  | nil => simp
  | cons c t ih =>
    have hc : c ≠ lbChar := hpre c (by simp)
    rw [List.cons_append]
    simp only [processVariables]
    split
    · rename_i w r h
      rw [tryVar_skip hc] at h
      simp at h
    · rw [ih (fun d hd => hpre d (by simp [hd]))]
      simp

theorem processConditionals_passthrough (ctx : Ctx) (pre rest : Str)
    (hpre : ∀ c ∈ pre, c ≠ lbChar) :
    processConditionals ctx (pre ++ rest) = pre ++ processConditionals ctx rest := by
  induction pre with
  | nil => simp
  | cons c t ih =>
    have hc : c ≠ lbChar := hpre c (by simp)
    rw [List.cons_append]
    simp only [processConditionals]
    split
    · rename_i w b r h
      rw [tryIf_skip hc] at h
      simp at h
    · rw [ih (fun d hd => hpre d (by simp [hd]))]
      simp

theorem processLoops_passthrough (ctx : Ctx) (pre rest : Str)
    (hpre : ∀ c ∈ pre, c ≠ lbChar) :
    processLoops ctx (pre ++ rest) = pre ++ processLoops ctx rest := by
  induction pre with
  | nil => simp
  | cons c t ih =>
    have hc : c ≠ lbChar := hpre c (by simp)
    rw [List.cons_append]
    simp only [processLoops]
    split
    · rename_i iv cv b r h
      rw [tryFor_skip hc] at h
      simp at h
    · rw [ih (fun d hd => hpre d (by simp [hd]))]
      simp

/-! Occurrence lemmas: where the lazy body of a construct ends. -/

theorem startsW_append_self (n r : Str) : startsW n (n ++ r) = true := by
  induction n with
  | nil => rfl
  | cons a ps ih => simp [startsW, ih]

theorem startsW_take {n u v : Str} (h : startsW n (u ++ v) = true)
    (hle : n.length ≤ u.length) : startsW n u = true := by
  induction n generalizing u with
  | nil => simp [startsW]
  | cons a n' ih =>
    cases u with
    | nil => simp at hle
    | cons x u' =>
      rw [List.cons_append] at h
      simp only [startsW, Bool.and_eq_true] at h ⊢
      exact ⟨h.1, ih h.2 (by simpa using hle)⟩

theorem hasSub_of_startsW {n s : Str} (h : startsW n s = true) : hasSub n s = true := by
  unfold hasSub
  cases s with
  | nil =>
    cases n with
    | nil => rfl
    | cons a ps => simp [startsW] at h
  | cons c t =>
    unfold splitFirst
    rw [if_pos h]
    rfl

theorem hasSub_cons (n : Str) (c : Char) (t : Str) (h : hasSub n t = true) :
    hasSub n (c :: t) = true := by
  unfold hasSub at h ⊢
  unfold splitFirst
  split
  · rfl
  · cases hx : splitFirst n t with
    | none => rw [hx] at h; simp at h
    | some p => rfl

theorem splitFirst_at (n body rest : Str) (hn : n ≠ [])
    (hno : hasSub n (body ++ n.dropLast) = false) :
    splitFirst n (body ++ (n ++ rest)) = some (body, rest) := by
  induction body with
  | nil =>
    simp only [List.nil_append]
    cases hn2 : n with
    | nil => exact absurd hn2 hn
    | cons n0 ns =>
      rw [show ((n0 :: ns) ++ rest : Str) = n0 :: (ns ++ rest) from rfl]
      unfold splitFirst
      rw [if_pos (by
        have := startsW_append_self (n0 :: ns) rest
        simpa using this)]
      simp
  | cons c b ih =>
    have hlast : n.dropLast ++ [n.getLast hn] = n := List.dropLast_append_getLast hn
    have hstart : startsW n (c :: (b ++ (n ++ rest))) = false := by
      by_contra hx
      have hx' : startsW n (c :: (b ++ (n ++ rest))) = true := by simpa using hx
      have hshape : (c :: (b ++ (n ++ rest)) : Str)
          = ((c :: b) ++ n.dropLast) ++ ([n.getLast hn] ++ rest) := by
        rw [List.append_assoc, ← List.append_assoc n.dropLast, hlast]
        rfl
      rw [hshape] at hx'
      have hle : n.length ≤ ((c :: b) ++ n.dropLast).length := by
        have : 0 < n.length := List.length_pos.mpr hn
        simp only [List.length_append, List.length_cons, List.length_dropLast]
        omega
      have := hasSub_of_startsW (startsW_take hx' hle)
      rw [this] at hno
      exact absurd hno (by simp)
    have hno' : hasSub n (b ++ n.dropLast) = false := by
      by_contra hx
      have hx' : hasSub n (b ++ n.dropLast) = true := by simpa using hx
      have := hasSub_cons n c _ hx'
      rw [show (c :: (b ++ n.dropLast) : Str) = (c :: b) ++ n.dropLast from rfl] at this
      rw [this] at hno
      exact absurd hno (by simp)
    rw [show ((c :: b) ++ (n ++ rest) : Str) = c :: (b ++ (n ++ rest)) from rfl]
    unfold splitFirst
    rw [if_neg (by simp [hstart])]
    rw [ih hno']
    rfl

/-! Matching one construct at the head of the input. -/

theorem tryVar_at (name post : Str) (hne : name ≠ [])
    (hnb : ∀ c ∈ name, ¬c = rbChar) :
    tryVar (brace3 ++ (name ++ (rbrace3 ++ post))) = some (name, post) := by
  obtain ⟨ht, hd⟩ := @takeWhile_append_stop (fun c => decide (c ≠ rbChar)) name rbChar
    (rbChar :: rbChar :: post) (fun x hx => by simpa using hnb x hx) (by simp)
  unfold tryVar
  rw [stripLit_append, Option.some_bind]
  rw [show (name ++ (rbrace3 ++ post) : Str) = name ++ rbChar :: (rbChar :: rbChar :: post)
    from rfl]
  rw [ht, hd]
  rw [if_neg (by simpa using hne)]
  rw [show (rbChar :: rbChar :: rbChar :: post : Str) = rbrace3 ++ post from rfl]
  rw [stripLit_append]
  rfl

theorem tryIf_at (w body post : Str) (hw : w ≠ [])
    (hwc : ∀ c ∈ w, isWordChar c = true)
    (hb : hasSub endifTok (body ++ endifTok.dropLast) = false) :
    tryIf (ifOpen ++ (w ++ (pctClose ++ (body ++ (endifTok ++ post)))))
      = some (w, body, post) := by
  obtain ⟨ht, hd⟩ := takeWhile_append_stop ' '
    ('%' :: rbChar :: (body ++ (endifTok ++ post))) hwc (by decide)
  unfold tryIf
  rw [stripLit_append, Option.some_bind]
  rw [show (w ++ (pctClose ++ (body ++ (endifTok ++ post))) : Str)
      = w ++ ' ' :: ('%' :: rbChar :: (body ++ (endifTok ++ post))) from rfl]
  rw [ht, hd]
  rw [if_neg (by simpa using hw)]
  rw [show (' ' :: '%' :: rbChar :: (body ++ (endifTok ++ post)) : Str)
      = pctClose ++ (body ++ (endifTok ++ post)) from rfl]
  rw [stripLit_append, Option.some_bind]
  rw [splitFirst_at endifTok body post (by decide) hb]
  rfl

theorem tryFor_at (iv cv body post : Str) (hiv : iv ≠ []) (hcv : cv ≠ [])
    (hivc : ∀ c ∈ iv, isWordChar c = true) (hcvc : ∀ c ∈ cv, isWordChar c = true)
    (hb : hasSub endforTok (body ++ endforTok.dropLast) = false) :
    tryFor (forOpen ++ (iv ++ (inTok ++ (cv ++ (pctClose ++ (body ++ (endforTok ++ post)))))))
      = some (iv, cv, body, post) := by
  obtain ⟨ht1, hd1⟩ := takeWhile_append_stop ' '
    ('i' :: 'n' :: ' ' :: (cv ++ (pctClose ++ (body ++ (endforTok ++ post))))) hivc (by decide)
  obtain ⟨ht2, hd2⟩ := takeWhile_append_stop ' '
    ('%' :: rbChar :: (body ++ (endforTok ++ post))) hcvc (by decide)
  unfold tryFor
  rw [stripLit_append, Option.some_bind]
  rw [show (iv ++ (inTok ++ (cv ++ (pctClose ++ (body ++ (endforTok ++ post))))) : Str)
      = iv ++ ' ' :: ('i' :: 'n' :: ' ' :: (cv ++ (pctClose ++ (body ++ (endforTok ++ post)))))
    from rfl]
  rw [ht1, hd1]
  rw [if_neg (by simpa using hiv)]
  rw [show (' ' :: 'i' :: 'n' :: ' ' :: (cv ++ (pctClose ++ (body ++ (endforTok ++ post)))) : Str)
      = inTok ++ (cv ++ (pctClose ++ (body ++ (endforTok ++ post)))) from rfl]
  rw [stripLit_append, Option.some_bind]
  rw [show (cv ++ (pctClose ++ (body ++ (endforTok ++ post))) : Str)
      = cv ++ ' ' :: ('%' :: rbChar :: (body ++ (endforTok ++ post))) from rfl]
  rw [ht2, hd2]
  rw [if_neg (by simpa using hcv)]
  rw [show (' ' :: '%' :: rbChar :: (body ++ (endforTok ++ post)) : Str)
      = pctClose ++ (body ++ (endforTok ++ post)) from rfl]
  rw [stripLit_append, Option.some_bind]
  rw [splitFirst_at endforTok body post (by decide) hb]
  rfl

/-! One-construct step lemmas for the three processors. -/

theorem processVariables_step (ctx : Ctx) (name post : Str) (hne : name ≠ [])
    (hnb : ∀ c ∈ name, ¬c = rbChar) :
    processVariables ctx (brace3 ++ (name ++ (rbrace3 ++ post)))
      = (match ctxFind ctx (pyStrip name) with
         | some v => if isNoneV v then [] else pyStr v
         | none => '[' :: pyStrip name ++ [']']) ++ processVariables ctx post := by
  have hstep := tryVar_at name post hne hnb
  rw [show (brace3 ++ (name ++ (rbrace3 ++ post)) : Str)
      = lbChar :: (lbChar :: lbChar :: (name ++ (rbrace3 ++ post))) from rfl]
  simp only [processVariables]
  split
  · rename_i w r h
    rw [show tryVar (lbChar :: (lbChar :: lbChar :: (name ++ (rbrace3 ++ post))))
        = some (name, post) from hstep] at h
    simp only [Option.some.injEq, Prod.mk.injEq] at h
    obtain ⟨h1, h2⟩ := h
    subst h1
    subst h2
    rfl
  · rename_i h
    rw [show tryVar (lbChar :: (lbChar :: lbChar :: (name ++ (rbrace3 ++ post))))
        = some (name, post) from hstep] at h
    simp at h

theorem processConditionals_step (ctx : Ctx) (w body post : Str) (hw : w ≠ [])
    (hwc : ∀ c ∈ w, isWordChar c = true)
    (hb : hasSub endifTok (body ++ endifTok.dropLast) = false) :
    processConditionals ctx (ifOpen ++ (w ++ (pctClose ++ (body ++ (endifTok ++ post)))))
      = (if (match ctxFind ctx w with
             | some v => pyTruthy v
             | none => false) = true then body else [])
        ++ processConditionals ctx post := by
  have hstep := tryIf_at w body post hw hwc hb
  rw [show (ifOpen ++ (w ++ (pctClose ++ (body ++ (endifTok ++ post)))) : Str)
      = lbChar :: ("% if ".toList ++ (w ++ (pctClose ++ (body ++ (endifTok ++ post))))) from rfl]
  simp only [processConditionals]
  split
  · rename_i w' b' r' h
    rw [show tryIf (lbChar :: ("% if ".toList ++ (w ++ (pctClose ++ (body ++ (endifTok ++ post))))))
        = some (w, body, post) from hstep] at h
    simp only [Option.some.injEq, Prod.mk.injEq] at h
    obtain ⟨h1, h2, h3⟩ := h
    subst h1
    subst h2
    subst h3
    rfl
  · rename_i h
    rw [show tryIf (lbChar :: ("% if ".toList ++ (w ++ (pctClose ++ (body ++ (endifTok ++ post))))))
        = some (w, body, post) from hstep] at h
    simp at h

theorem processLoops_step (ctx : Ctx) (iv cv body post : Str) (hiv : iv ≠ []) (hcv : cv ≠ [])
    (hivc : ∀ c ∈ iv, isWordChar c = true) (hcvc : ∀ c ∈ cv, isWordChar c = true)
    (hb : hasSub endforTok (body ++ endforTok.dropLast) = false) :
    processLoops ctx (forOpen ++ (iv ++ (inTok ++ (cv ++ (pctClose ++ (body ++ (endforTok ++ post)))))))
      = replaceLoop ctx iv cv body ++ processLoops ctx post := by
  have hstep := tryFor_at iv cv body post hiv hcv hivc hcvc hb
  rw [show (forOpen ++ (iv ++ (inTok ++ (cv ++ (pctClose ++ (body ++ (endforTok ++ post)))))) : Str)
      = lbChar :: ("% for ".toList
          ++ (iv ++ (inTok ++ (cv ++ (pctClose ++ (body ++ (endforTok ++ post))))))) from rfl]
  simp only [processLoops]
  split
  · rename_i iv' cv' b' r' h
    rw [show tryFor (lbChar :: ("% for ".toList
          ++ (iv ++ (inTok ++ (cv ++ (pctClose ++ (body ++ (endforTok ++ post))))))))
        = some (iv, cv, body, post) from hstep] at h
    simp only [Option.some.injEq, Prod.mk.injEq] at h
    obtain ⟨h1, h2, h3, h4⟩ := h
    subst h1
    subst h2
    subst h3
    subst h4
    rfl
  · rename_i h
    rw [show tryFor (lbChar :: ("% for ".toList
          ++ (iv ++ (inTok ++ (cv ++ (pctClose ++ (body ++ (endforTok ++ post))))))))
        = some (iv, cv, body, post) from hstep] at h
    simp at h

/-! Truthiness table lemmas. -/

theorem digit_not_space {m : Nat} (h : m < 10) : isPySpace (digitChar m) = false := by
  interval_cases m <;> decide

theorem natStr_props : ∀ m : Nat, natStr m ≠ [] ∧ ∀ c ∈ natStr m, isPySpace c = false := by
  intro m
  induction m using Nat.strong_induction_on with
  | _ m ih =>
    rw [natStr]
    split
    · rename_i h
      refine ⟨by simp, ?_⟩
      intro c hc
      have hcd : c = digitChar m := by simpa using hc
      rw [hcd]
      exact digit_not_space h
    · rename_i h
      have h10 : 10 ≤ m := Nat.le_of_not_lt h
      obtain ⟨ih1, ih2⟩ := ih (m / 10) (by omega)
      refine ⟨by simp, ?_⟩
      intro c hc
      rcases List.mem_append.mp hc with h1 | h2
      · exact ih2 c h1
      · have hcd : c = digitChar (m % 10) := by simpa using h2
        rw [hcd]
        exact digit_not_space (Nat.mod_lt _ (by omega))

theorem pyTruthy_pstr (s : Str) : pyTruthy (.pstr s) = !(pyStrip s).isEmpty := by
  simp [pyTruthy, isNoneV, pyStr]

theorem pyTruthy_plist (xs : List PyVal) : pyTruthy (.plist xs) = true := by
  have hmem : '[' ∈ pyStr (.plist xs) := by
    rw [show pyStr (.plist xs) = '[' :: (pyReprSeq xs ++ [']']) from rfl]
    simp
  have hne := pyStrip_ne_nil_of_mem hmem (by decide)
  have he : (pyStrip (pyStr (.plist xs))).isEmpty = false := by simpa using hne
  simp [pyTruthy, isNoneV, he]

theorem pyTruthy_pbool (b : Bool) : pyTruthy (.pbool b) = true := by
  cases b <;> decide

theorem pyTruthy_pint (n : Int) : pyTruthy (.pint n) = true := by
  have hmem : ∃ c ∈ pyStr (.pint n), isPySpace c = false := by
    rw [show pyStr (.pint n) = intStr n from rfl]
    unfold intStr
    split
    · exact ⟨'-', by simp, by decide⟩
    · obtain ⟨h1, h2⟩ := natStr_props n.toNat
      cases hx : natStr n.toNat with
      | nil => exact absurd hx h1
      | cons c t =>
        exact ⟨c, by simp, h2 c (by rw [hx]; simp)⟩
  obtain ⟨c, hc, hs⟩ := hmem
  have hne := pyStrip_ne_nil_of_mem hc hs
  have he : (pyStrip (pyStr (.pint n))).isEmpty = false := by simpa using hne
  simp [pyTruthy, isNoneV, he]

theorem pyTruthy_pnone : pyTruthy .pnone = false := by decide

/-- C6: a triple-delimited placeholder whose (trimmed) key is absent from
the context renders to exactly the bracketed placeholder [name]; the
substitution pass is a total function, so no exception can arise. -/
theorem missing_variable_placeholder_c6 (ctx : Ctx) (pre name post : Str)
    (hpre : ∀ c ∈ pre, c ≠ lbChar) (hne : name ≠ [])
    (hnb : ∀ c ∈ name, ¬c = rbChar) (htrim : pyStrip name = name)
    (hmiss : ctxFind ctx name = none) :
    processVariables ctx (pre ++ brace3 ++ name ++ rbrace3 ++ post)
      = pre ++ ('[' :: name ++ [']']) ++ processVariables ctx post := by
  rw [show (pre ++ brace3 ++ name ++ rbrace3 ++ post : Str)
      = pre ++ (brace3 ++ (name ++ (rbrace3 ++ post))) from by simp]
  rw [processVariables_passthrough ctx pre _ hpre]
  rw [processVariables_step ctx name post hne hnb]
  rw [htrim, hmiss]
  simp

/-- C6 witness: the placeholder for the absent key x renders to [x]. -/
theorem missing_variable_placeholder_c6_witness :
    processVariables [] ([] ++ brace3 ++ "x".toList ++ rbrace3 ++ [])
      = [] ++ ('[' :: "x".toList ++ [']']) ++ processVariables [] [] :=
  missing_variable_placeholder_c6 [] [] "x".toList []
    (by simp) (by decide) (by decide) (by decide) rfl

/-- The claim C7 state of a loop collection: absent from the context, not
a list, or the empty list. -/
def loopCollGone (ctx : Ctx) (collVar : Str) : Prop :=
  match ctxFind ctx collVar with
  | none => True
  | some (.plist xs) => xs = []
  | some _ => True

theorem replaceLoop_empty (ctx : Ctx) (iv cv body : Str) (h : loopCollGone ctx cv) :
    replaceLoop ctx iv cv body = [] := by
  unfold loopCollGone at h
  unfold replaceLoop
  cases hf : ctxFind ctx cv with
  | none => rfl
  | some v =>
    rw [hf] at h
    cases v with
    | plist xs =>
      have hxs : xs = [] := h
      subst hxs
      rfl
    | pstr s => rfl
    | pint n => rfl
    | pbool b => rfl
    | pnone => rfl
    | pdict kvs => rfl

/-- C7: a loop whose collection is absent, not a list, or the empty list
contributes the empty string to the output (the whole construct is
removed); loop processing is a total function, so it never raises. -/
theorem loop_empty_collection_c7 (ctx : Ctx) (pre iv cv body post : Str)
    (hpre : ∀ c ∈ pre, c ≠ lbChar)
    (hiv : iv ≠ []) (hivc : ∀ c ∈ iv, isWordChar c = true)
    (hcv : cv ≠ []) (hcvc : ∀ c ∈ cv, isWordChar c = true)
    (hb : hasSub endforTok (body ++ endforTok.dropLast) = false)
    (hcoll : loopCollGone ctx cv) :
    processLoops ctx (pre ++ forOpen ++ iv ++ inTok ++ cv ++ pctClose ++ body ++ endforTok ++ post)
      = pre ++ processLoops ctx post := by
  rw [show (pre ++ forOpen ++ iv ++ inTok ++ cv ++ pctClose ++ body ++ endforTok ++ post : Str)
      = pre ++ (forOpen ++ (iv ++ (inTok ++ (cv ++ (pctClose ++ (body ++ (endforTok ++ post)))))))
    from by simp]
  rw [processLoops_passthrough ctx pre _ hpre]
  rw [processLoops_step ctx iv cv body post hiv hcv hivc hcvc hb]
  rw [replaceLoop_empty ctx iv cv body hcoll]
  simp

/-- C7 witness: a loop over the absent collection items renders to the
empty string. -/
theorem loop_empty_collection_c7_witness :
    processLoops [] ([] ++ forOpen ++ "x".toList ++ inTok ++ "items".toList
        ++ pctClose ++ "B".toList ++ endforTok ++ [])
      = [] ++ processLoops [] [] :=
  loop_empty_collection_c7 [] [] "x".toList "items".toList "B".toList []
    (by simp) (by decide) (by decide) (by decide) (by decide) (by decide) (by exact trivial)

/-- C1 counterexample: with the conditional value the empty list (and the
boolean false), the code keeps the block body B instead of removing it:
the catch-all clause sees the non-blank str() forms "[]" and "False". -/
theorem conditional_truthiness_counterexample_c1 :
    processConditionals [("x".toList, PyVal.plist [])]
        (ifOpen ++ "x".toList ++ pctClose ++ "B".toList ++ endifTok) = "B".toList ∧
    processConditionals [("x".toList, PyVal.pbool false)]
        (ifOpen ++ "x".toList ++ pctClose ++ "B".toList ++ endifTok) = "B".toList := by
  constructor
  · have h := processConditionals_step [("x".toList, PyVal.plist [])]
      "x".toList "B".toList [] (by decide) (by decide) (by decide)
    have h0 : processConditionals [("x".toList, PyVal.plist [])] [] = [] := by
      simp only [processConditionals]
    have hc : (match ctxFind [("x".toList, PyVal.plist [])] "x".toList with
        | some v => pyTruthy v
        | none => false) = true := by decide
    rw [hc, h0] at h
    simpa using h
  · have h := processConditionals_step [("x".toList, PyVal.pbool false)]
      "x".toList "B".toList [] (by decide) (by decide) (by decide)
    have h0 : processConditionals [("x".toList, PyVal.pbool false)] [] = [] := by
      simp only [processConditionals]
    have hc : (match ctxFind [("x".toList, PyVal.pbool false)] "x".toList with
        | some v => pyTruthy v
        | none => false) = true := by decide
    rw [hc, h0] at h
    simpa using h

/-- C1 amended: a conditional block is kept exactly when the context value
is truthy under the code's rule: present and non-None and, for strings,
non-blank; the str() form of every list (including the empty one), every
boolean (including false) and every integer is non-blank, so those values
always keep the block, and an absent key, None, or a blank string removes
it. -/
theorem conditional_truthiness_amended_c1 :
    (∀ (ctx : Ctx) (pre w body post : Str),
      (∀ c ∈ pre, c ≠ lbChar) → w ≠ [] → (∀ c ∈ w, isWordChar c = true) →
      hasSub endifTok (body ++ endifTok.dropLast) = false →
      processConditionals ctx (pre ++ ifOpen ++ w ++ pctClose ++ body ++ endifTok ++ post)
        = pre ++ (if (match ctxFind ctx w with
                      | some v => pyTruthy v
                      | none => false) = true then body else [])
            ++ processConditionals ctx post) ∧
    (∀ s, pyTruthy (.pstr s) = !(pyStrip s).isEmpty) ∧
    (∀ xs, pyTruthy (.plist xs) = true) ∧
    (∀ b, pyTruthy (.pbool b) = true) ∧
    (∀ n, pyTruthy (.pint n) = true) ∧
    pyTruthy .pnone = false := by
  refine ⟨?_, pyTruthy_pstr, pyTruthy_plist, pyTruthy_pbool, pyTruthy_pint, pyTruthy_pnone⟩
  intro ctx pre w body post hpre hw hwc hb
  rw [show (pre ++ ifOpen ++ w ++ pctClose ++ body ++ endifTok ++ post : Str)
      = pre ++ (ifOpen ++ (w ++ (pctClose ++ (body ++ (endifTok ++ post))))) from by simp]
  rw [processConditionals_passthrough ctx pre _ hpre]
  rw [processConditionals_step ctx w body post hw hwc hb]
  simp

/-- C1 witness: a block guarded by a non-blank string value is kept. -/
theorem conditional_truthiness_amended_c1_witness :
    processConditionals [("x".toList, PyVal.pstr "v".toList)]
        ([] ++ ifOpen ++ "x".toList ++ pctClose ++ "B".toList ++ endifTok ++ [])
      = [] ++ (if (match ctxFind [("x".toList, PyVal.pstr "v".toList)] "x".toList with
                   | some v => pyTruthy v
                   | none => false) = true then "B".toList else [])
          ++ processConditionals [("x".toList, PyVal.pstr "v".toList)] [] :=
  conditional_truthiness_amended_c1.1 [("x".toList, PyVal.pstr "v".toList)]
    [] "x".toList "B".toList [] (by simp) (by decide) (by decide) (by decide)

/-! The failing-transport behaviour of the customization engine. -/

theorem enhanceSummary_failing (client : AIClient) (s : Str) (j : JobProfile)
    (hcalls : ∀ (p c : Str) (m : ModelParams), (client.call p c m).success = false) :
    enhanceSummary client s j = none := by
  unfold enhanceSummary
  split
  · rfl
  · dsimp only
    rw [hcalls]
    simp

theorem optimizeOneExp_failing (client : AIClient) (j : JobProfile) (e : Experience)
    (hcalls : ∀ (p c : Str) (m : ModelParams), (client.call p c m).success = false) :
    optimizeOneExp client j e = e := by
  unfold optimizeOneExp applyExpResponse
  dsimp only
  rw [hcalls]
  simp

theorem optimizeExperience_failing (client : AIClient) (exps : List Experience) (j : JobProfile)
    (hcalls : ∀ (p c : Str) (m : ModelParams), (client.call p c m).success = false) :
    optimizeExperience client exps j = exps := by
  unfold optimizeExperience
  split
  · rfl
  · rw [List.map_congr_left (fun e _ => optimizeOneExp_failing client j e hcalls)]
    simp

theorem adjustSkills_failing (client : AIClient) (skills : List SkillCategory) (j : JobProfile)
    (hcalls : ∀ (p c : Str) (m : ModelParams), (client.call p c m).success = false) :
    adjustSkills client skills j = skills := by
  unfold adjustSkills
  split
  · rfl
  · dsimp only
    rw [hcalls]
    simp

theorem optimizeProjects_failing (client : AIClient) (ps : List ProjectData) (j : JobProfile)
    (hcalls : ∀ (p c : Str) (m : ModelParams), (client.call p c m).success = false) :
    optimizeProjects client ps j = ps := by
  unfold optimizeProjects
  split
  · rfl
  · dsimp only
    rw [hcalls]
    simp

theorem customizeForJob_failing_calls (client : AIClient) (resume : ResumeData) (j : JobProfile)
    (hcalls : ∀ (p c : Str) (m : ModelParams), (client.call p c m).success = false) :
    customizeForJob client resume j = resume := by
  unfold customizeForJob
  split
  · rfl
  · have hsum : (match resume.summary with
        | some s =>
          if s.isEmpty then resume
          else
            match enhanceSummary client s j with
            | some cs => if cs.isEmpty then resume else { resume with summary := some cs }
            | none => resume
        | none => resume) = resume := by
      cases resume.summary with
      | none => rfl
      | some s =>
        dsimp only
        split
        · rfl
        · rw [enhanceSummary_failing client s j hcalls]
    rw [hsum]
    dsimp only
    rw [optimizeExperience_failing client resume.experiences j hcalls]
    rw [adjustSkills_failing client resume.skills j hcalls]
    rw [optimizeProjects_failing client resume.projects j hcalls]

/-- C2: when the availability probe fails and every transport call fails,
customize_for_job returns a record whose summary, experiences (with their
highlight lists), skills and projects all equal the input record's. -/
theorem failing_transport_keeps_resume_c2 (client : AIClient) (resume : ResumeData)
    (j : JobProfile) (hprobe : client.available = false)
    (hcalls : ∀ (p c : Str) (m : ModelParams), (client.call p c m).success = false) :
    (customizeForJob client resume j).summary = resume.summary ∧
    (customizeForJob client resume j).experiences = resume.experiences ∧
    (customizeForJob client resume j).skills = resume.skills ∧
    (customizeForJob client resume j).projects = resume.projects := by
  rw [customizeForJob_failing_calls client resume j hcalls]
  exact ⟨rfl, rfl, rfl, rfl⟩

/-- A transport whose probe and every call fail. -/
def failingClient : AIClient :=
  { available := false,
    call := fun _ _ _ =>
      { success := false, content := [], error_message := some "connection error".toList,
        status_code := none } }

/-- A concrete one-experience record for the C2 witness. -/
def sampleResume : ResumeData :=
  { basic := { name := "Jane".toList, address := ["Addr".toList],
               contact := { email := "j@e".toList, phone := "1".toList }, websites := [] },
    summary := some "S".toList,
    experiences := [{ company := "Acme".toList,
                      titles := [{ name := "Dev".toList, startdate := "2020".toList,
                                   enddate := "2021".toList }],
                      highlights := ["Did X".toList], unedited := [] }],
    education := [], projects := [], research := [],
    skills := [⟨"Tools".toList, ["Git".toList]⟩] }

/-- A concrete job profile for the C2 witness. -/
def sampleJob : JobProfile :=
  { title := "T".toList, company := "C".toList, description := "D".toList,
    requirements := [], preferred_skills := [], industry := [], experience_level := [] }

/-- C2 witness: at the concrete record, job and failing transport, every
section of the result equals the input. -/
theorem failing_transport_keeps_resume_c2_witness :
    (customizeForJob failingClient sampleResume sampleJob).summary = sampleResume.summary ∧
    (customizeForJob failingClient sampleResume sampleJob).experiences = sampleResume.experiences ∧
    (customizeForJob failingClient sampleResume sampleJob).skills = sampleResume.skills ∧
    (customizeForJob failingClient sampleResume sampleJob).projects = sampleResume.projects :=
  failing_transport_keeps_resume_c2 failingClient sampleResume sampleJob rfl
    (fun _ _ _ => rfl)
